import Mathlib

/-!
# A verification development for the EventStreamGPT preprocessing core

This file gives a shallow embedding, in Lean, of the fit/transform
preprocessing engine of the repository (`src/EventStream/utils.py`,
`src/EventStream/EventStreamData/event_stream_dataset_base.py`,
`src/EventStream/EventStreamData/event_stream_dataset_polars.py`), and
settles the stated properties of its specification against it.

Conventions used throughout:
* floating point columns are embedded as rationals (`ℚ`); the `np.NaN`
  missing sentinel and SQL-style nulls are represented explicitly where a
  function distinguishes them;
* polars expressions over a column become Lean functions over the value
  (or over the list of a group's values for aggregations);
* dataframes become lists of rows; joins become lookups on the join key;
* fallible code returns `Except`/`Option`.
-/

-- Rational arithmetic is `@[irreducible]` upstream; the concrete
-- evaluations below (`decide`) need it to reduce.
set_option allowUnsafeReducibility true

attribute [semireducible] Rat.add Rat.mul Rat.sub Rat.inv Rat.div

namespace ESGPT

/-- Rounding as `polars`' `Expr.round(0)` / Rust's `f64::round` performs it:
round half away from zero.  Used wherever the source rounds a polars column
(`vals_col.round(0)`, `(N * cnt_or_prop).round(0)`).  For `q < 0` the
value is `⌈q - 1/2⌉`, written as `-⌊1/2 - q⌋` so that it evaluates. -/
def plRound (q : ℚ) : ℤ :=
  if 0 ≤ q then ⌊q + 1/2⌋ else -⌊1/2 - q⌋

/-- Rounding as Python's built-in `round` and numpy's `.round()` perform it:
round half to even.  Used by `count_or_proportion` when `N` is an `int`
(`int(round(cnt_or_prop * N))`, utils.py line 33) and by `split`'s
`(np.array(split_fracs[:-1]) * len(subjects)).round()`. -/
def pyRound (q : ℚ) : ℤ :=
  let n : ℤ := ⌊q + 1/2⌋
  if q + 1/2 = (n : ℚ) ∧ n % 2 ≠ 0 then n - 1 else n

/-- Decidable equality for `Except`, used to evaluate the embedded
fallible functions at concrete inputs. -/
instance exceptDecEq {ε α : Type} [DecidableEq ε] [DecidableEq α] :
    DecidableEq (Except ε α) := fun a b =>
  match a, b with
  | .error x, .error y =>
    if h : x = y then .isTrue (by rw [h])
    else .isFalse fun hh => h (Except.error.inj hh)
  | .ok x, .ok y =>
    if h : x = y then .isTrue (by rw [h])
    else .isFalse fun hh => h (Except.ok.inj hh)
  | .error _, .ok _ => .isFalse fun hh => Except.noConfusion hh
  | .ok _, .error _ => .isFalse fun hh => Except.noConfusion hh

/-- `COUNT_OR_PROPORTION = Union[int, PROPORTION]` of
`src/EventStream/utils.py`: an integer count or a fractional proportion.
The source dispatches on the Python runtime type (`type(cnt_or_prop) is
int`), embedded here as the two constructors. -/
inductive CountOrProportion where
  | count (n : ℤ)
  | proportion (p : ℚ)
deriving DecidableEq, Repr

/-- `count_or_proportion` (utils.py lines 22-37), in the branch where `N`
is a Python `int`: `int(round(cnt_or_prop * N))` uses Python's banker
rounding. -/
def count_or_proportion_int (N : ℤ) : CountOrProportion → ℤ
  | .count n => n
  | .proportion p => pyRound (p * (N : ℚ))

/-- `count_or_proportion` (utils.py lines 22-37), in the branch where `N`
is a `pl.Expr`: `(N * cnt_or_prop).round(0).cast(int)` uses polars
rounding (half away from zero). -/
def count_or_proportion_expr (N : ℤ) : CountOrProportion → ℤ
  | .count n => n
  | .proportion p => plRound ((N : ℚ) * p)

/-- `lt_count_or_proportion` (utils.py lines 40-45) with an `int` total:
`False` when the cutoff is `None`, else `N_obs < count_or_proportion(...)`. -/
def lt_count_or_proportion_int (nObs : ℤ) (cop : Option CountOrProportion)
    (nTotal : ℤ) : Bool :=
  match cop with
  | none => false
  | some c => nObs < count_or_proportion_int nTotal c

/-- `lt_count_or_proportion` (utils.py lines 40-45) with a `pl.Expr` total. -/
def lt_count_or_proportion_expr (nObs : ℤ) (cop : Option CountOrProportion)
    (nTotal : ℤ) : Bool :=
  match cop with
  | none => false
  | some c => nObs < count_or_proportion_expr nTotal c

/-! ## The bound policy: `EventStreamDataset.drop_or_censor`
(event_stream_dataset_polars.py lines 83-149).

The source builds a list of `(condition, replacement)` pairs — drop lower,
drop upper, censor lower, censor upper, each appended only when the bound
expression is present — and chains them into `pl.when(...).then(...)`
clauses with `otherwise(col)`: the first true condition wins.  An absent
bound is `none`; the returned `none` stands for the `np.NaN` missing
sentinel the source returns. -/

/-- The drop-lower-bound condition of the chain:
`(col < drop_lower_bound) | ((col == drop_lower_bound) & drop_lower_bound_inclusive)`. -/
def dropLowerViolated (v : ℚ) (b? : Option ℚ) (incl : Bool) : Bool :=
  match b? with
  | some b => decide (v < b) || (decide (v = b) && incl)
  | none => false

/-- The drop-upper-bound condition of the chain:
`(col > drop_upper_bound) | ((col == drop_upper_bound) & drop_upper_bound_inclusive)`. -/
def dropUpperViolated (v : ℚ) (b? : Option ℚ) (incl : Bool) : Bool :=
  match b? with
  | some b => decide (b < v) || (decide (v = b) && incl)
  | none => false

/-- The censor-lower-bound condition of the chain: `col < censor_lower_bound`. -/
def censorLowerViolated (v : ℚ) (b? : Option ℚ) : Bool :=
  match b? with
  | some b => decide (v < b)
  | none => false

/-- The censor-upper-bound condition of the chain: `col > censor_upper_bound`. -/
def censorUpperViolated (v : ℚ) (b? : Option ℚ) : Bool :=
  match b? with
  | some b => decide (b < v)
  | none => false

/-- `EventStreamDataset.drop_or_censor` (polars file, lines 83-149): the
`when/then` chain over one value.  `none` in the result models the
`np.NaN` the source returns for a dropped value; a censor hit returns the
bound itself; otherwise the value is returned unchanged. -/
def drop_or_censor (v : ℚ) (drop_lower_bound : Option ℚ)
    (drop_lower_bound_inclusive : Bool) (drop_upper_bound : Option ℚ)
    (drop_upper_bound_inclusive : Bool)
    (censor_lower_bound censor_upper_bound : Option ℚ) : Option ℚ :=
  if dropLowerViolated v drop_lower_bound drop_lower_bound_inclusive then none
  else if dropUpperViolated v drop_upper_bound drop_upper_bound_inclusive then none
  else if censorLowerViolated v censor_lower_bound then censor_lower_bound
  else if censorUpperViolated v censor_upper_bound then censor_upper_bound
  else some v

/-! ## Id-column validation: `EventStreamDataset._validate_id_col` and
`get_smallest_valid_int_type` (polars file, lines 46-52 and 151-184). -/

/-- The unsigned polars integer types `get_smallest_valid_int_type` can
return. -/
inductive PlUIntType where
  | uint8 | uint16 | uint32 | uint64
deriving DecidableEq, Repr

/-- The largest value each unsigned type represents (`2**w - 1`, written
as literals so that concrete evaluation reduces). -/
def PlUIntType.maxVal : PlUIntType → ℤ
  | .uint8 => 255
  | .uint16 => 65535
  | .uint32 => 4294967295
  | .uint64 => 18446744073709551615

/-- `EventStreamDataset.get_smallest_valid_int_type` (polars file, lines
46-52), verbatim threshold chain (`num >= (2**64)-1` raises, `num >=
(2**32)-1` gives `UInt64`, and so on). -/
def get_smallest_valid_int_type (num : ℚ) : Except String PlUIntType :=
  if (18446744073709551615 : ℚ) ≤ num then
    .error "Value is too large to be expressed as an int!"
  else if (4294967295 : ℚ) ≤ num then .ok .uint64
  else if (65535 : ℚ) ≤ num then .ok .uint32
  else if (255 : ℚ) ≤ num then .ok .uint16
  else .ok .uint8

/-- The dtype classes `_validate_id_col` matches on. -/
inductive PlDType where
  | float | signedInt | unsignedInt | other
deriving DecidableEq, Repr

/-- How a call to `_validate_id_col` can fail. -/
inductive IdColError where
  /-- `ValueError(f"ID column ... is not unique!")`. -/
  | notUnique
  /-- `ValueError(f"ID column ... is not a non-negative integer type!")`. -/
  | notNonnegInt
  /-- `get_smallest_valid_int_type`'s `ValueError` for values `>= 2**64-1`. -/
  | tooLarge
  /-- The final strict `id_col.cast(dt)` fails on a value the unsigned
  type cannot represent. -/
  | castFail
deriving DecidableEq, Repr

/-- Is `v` a value a strict polars cast to unsigned type `dt` accepts and
preserves: a non-negative integer within the type's range. -/
def uintRepresentable (dt : PlUIntType) (v : ℚ) : Bool :=
  decide (0 ≤ v) && decide (v = ((plRound v : ℤ) : ℚ)) && decide (v ≤ (dt.maxVal : ℚ))

/-- `EventStreamDataset._validate_id_col` (polars file, lines 151-184).

The float branch keeps the source's condition character for character:
`if not (id_col == id_col.round(0)).all() and (id_col >= 0).all():` binds,
by Python precedence, as `(not all-integral) and (all-nonnegative)` — it
is embedded exactly so.  Equality with the rounded column holds iff the
value is an integer, so the rounding convention is immaterial there.  The
final `id_col.cast(dt)` is a strict polars cast, modelled as failing when
some value is not representable in the chosen unsigned type; the column's
max on an empty column is null, which would make `get_smallest_valid_int_type`
raise a `TypeError`, modelled by `castFail` as well. -/
def validate_id_col (dtype : PlDType) (vals : List ℚ) :
    Except IdColError (List ℚ × PlUIntType) :=
  if ¬ vals.Nodup then .error .notUnique
  else
    let checkOk : Bool :=
      match dtype with
      | .float =>
        ! ((! vals.all fun v => decide (v = ((plRound v : ℤ) : ℚ))) &&
           (vals.all fun v => decide (0 ≤ v)))
      | .signedInt => vals.all fun v => decide (0 ≤ v)
      | .unsignedInt => true
      | .other => false
    if ¬ checkOk then .error .notNonnegInt
    else
      match vals with
      | [] => .error .castFail
      | v₀ :: rest =>
        match get_smallest_valid_int_type (rest.foldl max v₀) with
        | .error _ => .error .tooLarge
        | .ok dt =>
          if vals.all (uintRepresentable dt) then .ok (vals, dt)
          else .error .castFail

/-! ## The measurement fitting loop: `EventStreamDatasetBase.fit_measurements`
(event_stream_dataset_base.py, lines 483-541) together with
`EventStreamDataset._total_possible_and_observed` (polars file, lines
410-423).

The abstract per-column hooks the loop calls — `_fit_measurement_metadata`
and `_fit_vocabulary` — are abstract methods of the base class, so they
enter the embedding as function parameters; `Vocabulary.filter` lives in
the vocabulary module, which is not among the repository files here, so it
too is a parameter.  Only the parts of a `MeasurementConfig` the loop
reads are carried. -/

/-- `TemporalityType` (spec §3): which table a measurement lives in. -/
inductive Temporality where
  | static | functionalTimeDependent | dynamic
deriving DecidableEq, Repr

/-- One row of the per-measure (train-split, event-type-filtered) source
table, as `fit_measurements` sees it: the owning `event_id` and whether
the measure's column is non-null in this row. -/
structure SourceRow where
  event_id : ℕ
  observed : Bool
deriving DecidableEq, Repr

/-- `EventStreamDataset._total_possible_and_observed` (polars file, lines
410-423): for `DYNAMIC` measures, distinct `event_id` counts (of all rows,
and of rows where the measure is non-null); otherwise plain row counts. -/
def total_possible_and_observed (temporality : Temporality)
    (rows : List SourceRow) : ℤ × ℤ :=
  match temporality with
  | .dynamic =>
    (((rows.map (·.event_id)).dedup.length : ℤ),
     (((rows.filter (·.observed)).map (·.event_id)).dedup.length : ℤ))
  | _ => ((rows.length : ℤ), ((rows.filter (·.observed)).length : ℤ))

/-- The slice of one `MeasurementConfig` plus its source data that the
`fit_measurements` loop body reads for one measure. -/
structure FitMeasureInput where
  measure : String
  /-- `config.is_dropped` of the user-declared config. -/
  isDroppedCfg : Bool
  /-- `config.is_numeric`. -/
  isNumeric : Bool
  /-- `config.vocabulary` of the user-declared config (pre-supplied vocabulary). -/
  vocabCfg : Option (List String)
  temporality : Temporality
  /-- `measure in source_df`: the measure's column exists in the source table. -/
  present : Bool
  /-- The rows of `self._get_source_df(config, do_only_train=True)`. -/
  rows : List SourceRow

/-- The slice of the inferred (deep-copied) config that the loop mutates. -/
structure InferredConfig where
  isDropped : Bool
  observation_frequency : Option ℚ
  vocabulary : Option (List String)
deriving DecidableEq, Repr

/-- The global config fields `fit_measurements` reads. -/
structure FitConfig where
  min_valid_column_observations : Option CountOrProportion
  min_valid_vocab_element_observations : Option CountOrProportion

/-- The `ValueError(f"Fitting measurement metadata failed for measure
{measure}!") from e` that wraps a failure of `_fit_measurement_metadata`:
the column name it carries and the underlying cause. -/
structure FitError where
  measure : String
  cause : String
deriving DecidableEq, Repr

/-- The state `fit_measurements` leaves on the dataset object: the
`inferred_measurement_configs` mapping (in insertion order) and the
`_is_fit` flag. -/
structure FitState where
  inferred : List (String × InferredConfig)
  isFit : Bool
deriving DecidableEq, Repr

/-- The body of the `for measure, config in ...` loop of
`fit_measurements` (base file, lines 491-539) for one measure whose
declared config is not dropped: the inferred entry this measure ends with,
and the wrapped error if `_fit_measurement_metadata` raised.

`fitMeta` stands for the abstract `_fit_measurement_metadata` (its
`pd.DataFrame` result does not matter to the loop's control flow, only
whether it raises); `fitVocab` for `_fit_vocabulary`; `filterVocab n cop v`
for `Vocabulary.filter(len(source_df), min_valid_vocab_element_observations)`
mutating the vocabulary in place. -/
def fit_one (cfg : FitConfig) (fitMeta : String → Except String Unit)
    (fitVocab : String → Option (List String))
    (filterVocab : ℕ → CountOrProportion → List String → List String)
    (inp : FitMeasureInput) : InferredConfig × Option String :=
  -- `self.inferred_measurement_configs[measure] = copy.deepcopy(config)`
  let entry : InferredConfig :=
    { isDropped := false, observation_frequency := none, vocabulary := inp.vocabCfg }
  -- `if measure not in source_df: config.drop(); continue`
  if ¬ inp.present then ({ entry with isDropped := true }, none)
  else
    let po := total_possible_and_observed inp.temporality inp.rows
    -- `source_df = self._drop_df_nulls(source_df, measure)`
    let srcRows := inp.rows.filter (·.observed)
    -- `if total_possible == 0: config.drop(); continue`
    if po.1 = 0 then ({ entry with isDropped := true }, none)
    else
      -- `config.observation_frequency = total_observed / total_possible`
      let entry := { entry with observation_frequency := some ((po.2 : ℚ) / (po.1 : ℚ)) }
      -- `if lt_count_or_proportion(total_observed, min_valid_column_observations, total_possible)`
      if lt_count_or_proportion_int po.2 cfg.min_valid_column_observations po.1 then
        ({ entry with isDropped := true }, none)
      else
        -- `if config.is_numeric: try ... except BaseException as e: raise ValueError(...) from e`
        match (if inp.isNumeric then fitMeta inp.measure else .ok ()) with
        | .error e => (entry, some e)
        | .ok () =>
          -- `if config.vocabulary is None: config.vocabulary = self._fit_vocabulary(...)`
          if inp.vocabCfg = none then
            match fitVocab inp.measure with
            | none => (entry, none)
            | some voc =>
              let voc :=
                match cfg.min_valid_vocab_element_observations with
                | some c => filterVocab srcRows.length c voc
                | none => voc
              -- `if config.vocabulary.vocabulary == ['UNK']: config.drop()`
              if voc = ["UNK"] then
                ({ entry with isDropped := true, vocabulary := some voc }, none)
              else ({ entry with vocabulary := some voc }, none)
          else (entry, none)

/-- The loop of `fit_measurements` over the measure list, threading the
`inferred_measurement_configs` accumulator; a wrapped
`_fit_measurement_metadata` failure propagates out of the loop at once,
leaving `_is_fit` at the `False` it was set to on entry (line 489). -/
def fit_measurements_go (cfg : FitConfig) (fitMeta : String → Except String Unit)
    (fitVocab : String → Option (List String))
    (filterVocab : ℕ → CountOrProportion → List String → List String)
    (acc : List (String × InferredConfig)) :
    List FitMeasureInput → FitState × Option FitError
  | [] => ({ inferred := acc, isFit := true }, none)
  | inp :: rest =>
    -- `if config.is_dropped: continue`
    if inp.isDroppedCfg then fit_measurements_go cfg fitMeta fitVocab filterVocab acc rest
    else
      match fit_one cfg fitMeta fitVocab filterVocab inp with
      | (entry, some e) =>
        ({ inferred := acc ++ [(inp.measure, entry)], isFit := false },
         some { measure := inp.measure, cause := e })
      | (entry, none) =>
        fit_measurements_go cfg fitMeta fitVocab filterVocab
          (acc ++ [(inp.measure, entry)]) rest

/-- `EventStreamDatasetBase.fit_measurements` (base file, lines 483-541):
sets `_is_fit = False`, runs the per-measure loop, and sets `_is_fit =
True` only after the loop finishes; a wrapped per-column error aborts the
call with the state reached so far. -/
def fit_measurements (cfg : FitConfig) (fitMeta : String → Except String Unit)
    (fitVocab : String → Option (List String))
    (filterVocab : ℕ → CountOrProportion → List String → List String)
    (inputs : List FitMeasureInput) : FitState × Option FitError :=
  fit_measurements_go cfg fitMeta fitVocab filterVocab [] inputs

/-! ## The unified vocabulary index space
(`unified_measurements_vocab`, `unified_vocabulary_offsets`,
`unified_vocabulary_idxmap`, base file lines 729-754).

The fitted state these properties read is carried as the event-type list
(`self.event_types`) plus, per non-dropped measurement key, its optional
fitted vocabulary (`config.vocabulary.vocabulary`). -/

/-- Modelled from the spec: `Vocabulary.idxmap` (the vocabulary module is
not among the repository's files here).  Spec §4.6 sizes each key's
contiguous index block exactly by its vocabulary length starting at the
key's offset, and the in-src `measurement_idxmaps` (base file, line 672)
builds the event-type idxmap as `{et: i for i, et in enumerate(...)}`,
0-based, treating the per-measurement vocabulary idxmaps uniformly with
it; so the idxmap enumerates the vocabulary list 0-based. -/
def vocab_idxmap (vocab : List String) : List (String × ℕ) :=
  vocab.enum.map fun p => (p.2, p.1)

/-- `m in self.measurement_vocabs` and the lookup itself (base file, lines
677-684): `event_type` maps to `self.event_types`; a measurement key maps
to its fitted vocabulary when it has one. -/
def measurement_vocabs_lookup (event_types : List String)
    (configs : List (String × Option (List String))) (m : String) :
    Option (List String) :=
  if m = "event_type" then some event_types
  else (configs.lookup m).join

/-- `unified_measurements_vocab` (base file, lines 729-731):
`['event_type'] + list(sorted(self.measurement_configs.keys()))`. -/
def unified_measurements_vocab (measurementKeys : List String) : List String :=
  "event_type" :: measurementKeys.mergeSort (· ≤ ·)

/-- `unified_measurements_idxmap` (base file, lines 733-735):
`{m: i+1 for i, m in enumerate(self.unified_measurements_vocab)}`. -/
def unified_measurements_idxmap (measurementKeys : List String) :
    List (String × ℕ) :=
  (unified_measurements_vocab measurementKeys).enum.map fun p => (p.2, p.1 + 1)

/-- The loop of `unified_vocabulary_offsets` (base file, lines 737-744):
`curr_offset` starts at 1 and advances by the vocabulary's length, or by 1
for a key with no vocabulary. -/
def unified_vocabulary_offsets_go (vocabs : String → Option (List String)) :
    List String → ℕ → List (String × ℕ)
  | [], _ => []
  | m :: ms, curr =>
    (m, curr) ::
      unified_vocabulary_offsets_go vocabs ms
        (curr + match vocabs m with | some vs => vs.length | none => 1)

/-- The amount `curr_offset` advances for one measure (base file, lines
740-744): the vocabulary's length, or 1 for a measure with no
vocabulary. -/
def vocabBlockSize (vocabs : String → Option (List String)) (m : String) : ℕ :=
  match vocabs m with
  | some vs => vs.length
  | none => 1

/-- `unified_vocabulary_offsets` (base file, lines 737-744). -/
def unified_vocabulary_offsets (event_types : List String)
    (configs : List (String × Option (List String))) : List (String × ℕ) :=
  unified_vocabulary_offsets_go (measurement_vocabs_lookup event_types configs)
    (unified_measurements_vocab (configs.map Prod.fst)) 1

/-- `unified_vocabulary_idxmap` (base file, lines 746-754): per measure,
either the measure's vocabulary idxmap shifted by the measure's offset, or
the singleton `{m: offset}` when the measure has no vocabulary.  (`m in
self.measurement_idxmaps` holds exactly when `m` has a vocabulary, the
same condition as `measurement_vocabs`.) -/
def unified_vocabulary_idxmap (event_types : List String)
    (configs : List (String × Option (List String))) :
    List (String × List (String × ℕ)) :=
  (unified_vocabulary_offsets event_types configs).map fun mo =>
    match measurement_vocabs_lookup event_types configs mo.1 with
    | some vs => (mo.1, (vocab_idxmap vs).map fun vi => (vi.1, vi.2 + mo.2))
    | none => (mo.1, [(mo.1, mo.2)])

/-! ## The write-back join: `EventStreamDataset.update_attr_df`
(polars file, lines 878-886).

A stored table's row is its primary id plus its columns, embedded as an
association list from column name to nullable value.  `old_df.update(new_df,
on=id_col)` is polars' update join: rows are matched on the id column and
only the *non-null* values of the right frame overwrite the left frame's. -/

/-- One row of a stored attribute table. -/
structure AttrRow where
  id : ℕ
  cells : List (String × Option ℚ)
deriving DecidableEq, Repr

/-- Read a column of a row (an absent column reads as null). -/
def AttrRow.getCell (r : AttrRow) (c : String) : Option ℚ :=
  (r.cells.lookup c).join

/-- Write a column of a row (replacing the column, or appending it if the
row does not have it yet). -/
def AttrRow.setCell (r : AttrRow) (c : String) (v : Option ℚ) : AttrRow :=
  if c ∈ r.cells.map Prod.fst then
    { r with cells := r.cells.map fun kv => if kv.1 = c then (kv.1, v) else kv }
  else { r with cells := r.cells ++ [(c, v)] }

/-- `EventStreamDataset.update_attr_df` (polars file, lines 878-886):

* `old_df = old_df.with_columns(**{c: pl.lit(None) ... for c in cols_to_update})`
  — every updated column of the stored table is first set to null;
* `new_df = df.select(id_col, *cols_to_update)`;
* `old_df.update(new_df, on=id_col)` — for each stored row whose id
  matches a row of `new_df`, the non-null values of that row's updated
  columns overwrite the (nulled) stored values; unmatched rows are left
  as they stand after the nulling. -/
def update_attr_df (old : List AttrRow) (df : List AttrRow)
    (cols_to_update : List String) : List AttrRow :=
  let nulled := old.map fun r => cols_to_update.foldl (fun r c => r.setCell c none) r
  let newDf := df.map fun r =>
    AttrRow.mk r.id (cols_to_update.map fun c => (c, r.getCell c))
  nulled.map fun r =>
    match newDf.find? (fun nr => nr.id = r.id) with
    | none => r
    | some nr =>
      cols_to_update.foldl
        (fun r c => match nr.getCell c with
          | some v => r.setCell c (some v)
          | none => r) r

/-! ## Numeric value-type inference:
`EventStreamDataset._add_inferred_val_types` (polars file, lines 425-518).

The metadata frame is embedded as an association list from vocabulary key
to its (nullable) `value_type`; the source frame as the list of
`(vocabulary key, value)` pairs of its rows (the caller has already
dropped null/NaN values, polars file line 578/593).  polars groupbys
become per-key aggregations over `keyVals`; the `how='outer'` joins
extend the metadata key list with the aggregation's new keys. -/

/-- `NumericDataModalitySubtype` (types module; its members are listed in
spec §4.1: INTEGER, FLOAT, CATEGORICAL_INTEGER, CATEGORICAL_FLOAT,
DROPPED). -/
inductive NumericValueType where
  | integer | float | categoricalInteger | categoricalFloat | dropped
deriving DecidableEq, Repr

/-- The values observed for one vocabulary key, in row order (a polars
`groupby(vocab_keys_col)` group of the values column). -/
def keyVals (source : List (String × ℚ)) (k : String) : List ℚ :=
  (source.filter (·.1 = k)).map (·.2)

/-- The distinct keys of the source frame, in first-appearance order (the
keys a `groupby(vocab_keys_col)` produces). -/
def sourceKeys (source : List (String × ℚ)) : List String :=
  (source.map (·.1)).dedup

/-- The `is_int` aggregate of one group (polars file, lines 456-459):
`(vals_col == vals_col.round(0)).mean() > (1 - min_true_float_frequency)`. -/
def isIntAgg (min_true_float_frequency : ℚ) (vals : List ℚ) : Bool :=
  decide ((((vals.filter fun v => v = ((plRound v : ℤ) : ℚ)).length : ℚ) / (vals.length : ℚ))
    > 1 - min_true_float_frequency)

/-- The `is_categorical` aggregate of one group (polars file, lines
487-490): `lt_count_or_proportion(vals_col.n_unique(), ..., vals_col.len())`
over a `pl.Expr` total. -/
def isCatAgg (min_unique : CountOrProportion) (vals : List ℚ) : Bool :=
  lt_count_or_proportion_expr (vals.dedup.length : ℤ) (some min_unique) (vals.length : ℤ)

/-- The `for_val_type_inference` frame (polars file, lines 445-452): the
source rows whose key is not in the metadata at all, or is in the metadata
with a null `value_type`. -/
def forValTypeInference (metadata : List (String × Option NumericValueType))
    (source : List (String × ℚ)) : List (String × ℚ) :=
  source.filter fun r =>
    (! decide (r.1 ∈ metadata.map Prod.fst)) ||
    decide (r.1 ∈ (metadata.filter (·.2 = none)).map Prod.fst)

/-- An `outer` join of the metadata key list with an aggregation's keys:
keys new to the metadata are appended with a null `value_type`. -/
def outerExtendKeys (metadata : List (String × Option NumericValueType))
    (newKeys : List String) : List (String × Option NumericValueType) :=
  metadata ++ (newKeys.filter fun k => ! decide (k ∈ metadata.map Prod.fst)).map
    (fun k => (k, none))

/-- The final `value_type` chain (polars file, lines 500-514): both flags
set gives CATEGORICAL_INTEGER, then CATEGORICAL_FLOAT, then INTEGER, else
FLOAT; a null flag (a key absent from the aggregation, or the whole
column the literal `False` when the config switch is off) is falsy in a
polars `when`. -/
def inferredValueType (isInt? isCat? : Option Bool) : NumericValueType :=
  if isInt? = some true ∧ isCat? = some true then .categoricalInteger
  else if isCat? = some true then .categoricalFloat
  else if isInt? = some true then .integer
  else .float

/-- Step a, aggregation (polars file, lines 456-459): the per-key `is_int`
frame, one row per key of `for_val_type_inference`; the empty frame when
`min_true_float_frequency` is off. -/
def aivt_int_keys (mtff : Option ℚ) (fvti : List (String × ℚ)) :
    List (String × Bool) :=
  match mtff with
  | some f => (sourceKeys fvti).map fun k => (k, isIntAgg f (keyVals fvti k))
  | none => []

/-- The `is_int` column value joined onto metadata key `k`: the (nullable)
aggregate when the switch is on, the literal `False` (line 468) when off. -/
def aivt_is_int_of (mtff : Option ℚ) (intKeys : List (String × Bool))
    (k : String) : Option Bool :=
  match mtff with
  | some _ => intKeys.lookup k
  | none => some false

/-- Step a, metadata outer join (line 461): the aggregate's keys extend
the metadata (null `value_type`) when the switch is on. -/
def aivt_metadata2 (mtff : Option ℚ)
    (metadata : List (String × Option NumericValueType))
    (intKeys : List (String × Bool)) : List (String × Option NumericValueType) :=
  match mtff with
  | some _ => outerExtendKeys metadata (intKeys.map Prod.fst)
  | none => metadata

/-- Step a, value rewrite (lines 463-466): the integral keys' values are
rounded in `for_val_type_inference`. -/
def aivt_fvti2 (intKeys : List (String × Bool)) (fvti : List (String × ℚ)) :
    List (String × ℚ) :=
  fvti.map fun r =>
    if intKeys.lookup r.1 = some true then (r.1, ((plRound r.2 : ℤ) : ℚ)) else r

/-- Step b (lines 471-473): keys with a single distinct (post-rounding)
value. -/
def aivt_dropped_keys (fvti2 : List (String × ℚ)) : List String :=
  (sourceKeys fvti2).filter fun k => (keyVals fvti2 k).dedup.length = 1

/-- Step b (lines 475-483): mark the dropped keys DROPPED in the
metadata. -/
def aivt_metadata3 (droppedKeys : List String)
    (metadata2 : List (String × Option NumericValueType)) :
    List (String × Option NumericValueType) :=
  metadata2.map fun kt =>
    if kt.1 ∈ droppedKeys then (kt.1, some NumericValueType.dropped) else kt

/-- Step b (line 484): the dropped keys' rows leave
`for_val_type_inference`. -/
def aivt_fvti3 (droppedKeys : List String) (fvti2 : List (String × ℚ)) :
    List (String × ℚ) :=
  fvti2.filter fun r => ! decide (r.1 ∈ droppedKeys)

/-- Step c, aggregation (lines 487-493): the per-key `is_categorical`
frame over the remaining rows. -/
def aivt_cat_keys (muno : Option CountOrProportion)
    (fvti3 : List (String × ℚ)) : List (String × Bool) :=
  match muno with
  | some c => (sourceKeys fvti3).map fun k => (k, isCatAgg c (keyVals fvti3 k))
  | none => []

/-- The `is_categorical` column value joined onto metadata key `k` (the
literal `False`, line 498, when the switch is off). -/
def aivt_is_cat_of (muno : Option CountOrProportion)
    (catKeys : List (String × Bool)) (k : String) : Option Bool :=
  match muno with
  | some _ => catKeys.lookup k
  | none => some false

/-- Step c, metadata outer join (line 496). -/
def aivt_metadata4 (muno : Option CountOrProportion)
    (metadata3 : List (String × Option NumericValueType))
    (catKeys : List (String × Bool)) : List (String × Option NumericValueType) :=
  match muno with
  | some _ => outerExtendKeys metadata3 (catKeys.map Prod.fst)
  | none => metadata3

/-- `EventStreamDataset._add_inferred_val_types` (polars file, lines
425-518), end to end, composed from the `aivt_*` stages above:

a. when `min_true_float_frequency` is set, aggregate `is_int` per key of
   `for_val_type_inference`, outer-join the keys into the metadata, and
   round the values of the integral keys (lines 455-466); otherwise
   `is_int` is the literal `False` (line 468);
b. mark keys with a single distinct (post-rounding) value DROPPED and drop
   their rows (lines 470-484);
c. when `min_unique_numerical_observations` is set, aggregate
   `is_categorical` per remaining key and outer-join its keys into the
   metadata (lines 487-496); otherwise the literal `False` (line 498);
d. coalesce the existing `value_type` with the inferred one (lines
   500-518).

The result maps every metadata key (including keys the outer joins added)
to its final, non-null `value_type`. -/
def add_inferred_val_types (min_true_float_frequency : Option ℚ)
    (min_unique_numerical_observations : Option CountOrProportion)
    (metadata : List (String × Option NumericValueType))
    (source : List (String × ℚ)) : List (String × NumericValueType) :=
  let fvti := forValTypeInference metadata source
  let intKeys := aivt_int_keys min_true_float_frequency fvti
  let fvti2 := aivt_fvti2 intKeys fvti
  let droppedKeys := aivt_dropped_keys fvti2
  let metadata3 :=
    aivt_metadata3 droppedKeys (aivt_metadata2 min_true_float_frequency metadata intKeys)
  let catKeys := aivt_cat_keys min_unique_numerical_observations
    (aivt_fvti3 droppedKeys fvti2)
  let metadata4 := aivt_metadata4 min_unique_numerical_observations metadata3 catKeys
  -- step d (lines 500-518)
  metadata4.map fun kt =>
    (kt.1, kt.2.getD (inferredValueType
      (aivt_is_int_of min_true_float_frequency intKeys kt.1)
      (aivt_is_cat_of min_unique_numerical_observations catKeys kt.1)))

/-! ## Subject splitting: `EventStreamDatasetBase.split`
(base file, lines 304-350).

The two `np.random.permutation` draws are embedded as explicit data: the
shuffle of the split names/fractions as an index list `namePerm`, and the
shuffled subject list as the already-permuted list `subjects` (theorems
quantify over them, asking only that they be genuine permutations).
Python/numpy slicing semantics (`np.split` slices clip at the array ends)
are kept. -/

/-- The default split names (base file, lines 331-334). -/
def default_split_names (k : ℕ) : List String :=
  if k = 2 then ["train", "held_out"]
  else if k = 3 then ["train", "tuning", "held_out"]
  else (List.range k).map fun i => "split_" ++ toString i

/-- `[xs[i] for i in perm]`: apply an index permutation to a list
(an out-of-range index contributes nothing; theorems require `perm` to be
a permutation of `List.range xs.length`). -/
def applyPerm {α : Type} (perm : List ℕ) (xs : List α) : List α :=
  perm.filterMap fun i => xs.get? i

/-- `split_lens` (base file, lines 345-346): numpy-round each fraction
but the last times the subject count, then append the remainder
`len(subjects) - split_lens.sum()`. -/
def split_lens (fracs : List ℚ) (n : ℕ) : List ℤ :=
  let lens := fracs.dropLast.map fun f => pyRound (f * (n : ℚ))
  lens ++ [(n : ℤ) - lens.sum]

/-- The partial sums `split_lens.cumsum()`. -/
def cumsum (l : List ℤ) : List ℤ :=
  (l.scanl (· + ·) 0).tail

/-- Structural form of the partial sums starting from `s` (provably equal
to `cumsum` at `s = 0`), used to reason about the boundaries. -/
def cumsumFrom (s : ℤ) : List ℤ → List ℤ
  | [] => []
  | l :: ls => (s + l) :: cumsumFrom (s + l) ls

/-- Python's `xs[a:b]` for integer bounds (clipping at the ends; the
theorems only use non-negative bounds, where `toNat` clipping coincides
with Python's slicing). -/
def pySlice {α : Type} (a b : ℤ) (xs : List α) : List α :=
  (xs.take b.toNat).drop a.toNat

/-- `np.split(subjects, boundaries)` restricted to the first
`boundaries.length` pieces (the extra final piece `subjects[last:]` is
dropped by the `zip` with the split names): piece `i` is
`subjects[boundaries[i-1] : boundaries[i]]`. -/
def np_split_go {α : Type} (xs : List α) (prev : ℤ) :
    List ℤ → List (List α)
  | [] => []
  | b :: bs => pySlice prev b xs :: np_split_go xs b bs

/-- The pieces `zip(split_names, subjects_per_split)` pairs with names. -/
def np_split_pieces {α : Type} (xs : List α) (boundaries : List ℤ) :
    List (List α) :=
  np_split_go xs 0 boundaries

/-- Insertion into a Python `dict` built by `{k: v for k, v in ...}`:
a repeated key overwrites its earlier value in place. -/
def dictInsert {α : Type} (d : List (String × α)) (k : String) (v : α) :
    List (String × α) :=
  if k ∈ d.map Prod.fst then
    d.map fun kv => if kv.1 = k then (k, v) else kv
  else d ++ [(k, v)]

/-- `{k: set(v) for k, v in zip(split_names, subjects_per_split)}`. -/
def dictOfList {α : Type} (l : List (String × α)) : List (String × α) :=
  l.foldl (fun d kv => dictInsert d kv.1 kv.2) []

/-- `EventStreamDatasetBase.split` (base file, lines 304-350): append the
remainder fraction when the fractions sum below 1, default the names,
shuffle names and fractions together by `namePerm`, cut the shuffled
subject list at the rounded cumulative boundaries, and store the
name-to-subject-set dict (sets are kept as the sliced subject lists, whose
members are distinct whenever the subject list is). -/
def split_subjects_of (split_fracs : List ℚ)
    (split_names? : Option (List String)) (namePerm : List ℕ)
    (subjects : List ℕ) : List (String × List ℕ) :=
  let fracs :=
    if split_fracs.sum < 1 then split_fracs ++ [1 - split_fracs.sum]
    else split_fracs
  let names :=
    match split_names? with
    | none => default_split_names fracs.length
    | some ns => ns
  let names := applyPerm namePerm names
  let fracs := applyPerm namePerm fracs
  let bounds := cumsum (split_lens fracs subjects.length)
  dictOfList (names.zip (np_split_pieces subjects bounds))

/-! ## The Dense Batch Encoder: `EventStreamDataset.melt_df` and
`build_DL_cached_representation` (polars file, lines 888-938 and
940-1009), in the default `do_sort_outputs=False` configuration.

Scope of the embedding: measurements carried as symbol columns
(classification and the key column of a multivariate regression, with its
separate values column); the `melt_df` struct for such a measure is
`present = is_not_null & is_in(vocab)` (or just `is_not_null` for a key
with no vocabulary), `index = map_dict(unified idxmap)` (or the key's own
singleton slot), and `value` from the multivariate values column or the
null literal.  Timestamps are nanosecond integers, as in the
`dt.nanoseconds()` arithmetic of line 1000. -/

/-- A row of `subjects_df` as the encoder reads it. -/
structure SubjectsRow where
  subject_id : ℕ
  cells : List (String × Option String)
deriving DecidableEq, Repr

/-- A row of `events_df` as the encoder reads it (`event_type` is a
mandatory non-null column; `cells` carries any functional-time-dependent
symbol columns). -/
structure EventsRow where
  event_id : ℕ
  subject_id : ℕ
  timestamp : ℤ
  event_type : String
  cells : List (String × Option String)
deriving DecidableEq, Repr

/-- A row of `dynamic_measurements_df` as the encoder reads it. -/
structure DynRow where
  measurement_id : ℕ
  event_id : ℕ
  cells : List (String × Option String)
  vals : List (String × Option ℚ)
deriving DecidableEq, Repr

/-- A melted (long-form) row out of `melt_df`: the id columns the melt
kept (absent ones are null, as `pl.concat(..., how='diagonal')` makes
them), the measurement index, the unified vocabulary index and the value. -/
structure MeltedRow where
  subject_id : Option ℕ
  timestamp : Option ℤ
  event_id : Option ℕ
  measurement_index : Option ℕ
  index : Option ℕ
  value : Option ℚ
deriving DecidableEq, Repr

/-- The `present` field of the per-measure struct (polars file, lines
901-908): non-null and, for a measure with a vocabulary, a member of it. -/
def meltPresent (event_types : List String)
    (configs : List (String × Option (List String))) (m : String)
    (cell : Option String) : Bool :=
  match measurement_vocabs_lookup event_types configs m with
  | some vs => match cell with | some s => decide (s ∈ vs) | none => false
  | none => cell.isSome

/-- The `index` field of the per-measure struct (polars file, lines
903-906): `map_dict` over the measure's unified idxmap, or the literal
singleton slot for a measure with no vocabulary. -/
def meltIndex (event_types : List String)
    (configs : List (String × Option (List String))) (m : String)
    (cell : Option String) : Option ℕ :=
  match measurement_vocabs_lookup event_types configs m with
  | some _ =>
    (match cell with
     | some s =>
       ((unified_vocabulary_idxmap event_types configs).lookup m).bind
         fun ps => ps.lookup s
     | none => none)
  | none =>
    ((unified_vocabulary_idxmap event_types configs).lookup m).bind
      fun ps => ps.lookup m

/-- The measurement index of a measure:
`map_dict(unified_measurements_idxmap)` (polars file, lines 933-935). -/
def meltMeasIdx (configs : List (String × Option (List String)))
    (m : String) : Option ℕ :=
  (unified_measurements_idxmap (configs.map Prod.fst)).lookup m

/-- `melt_df` over `subjects_df` with id columns `['subject_id']`
(classification measures: the value expression is the null literal).
The melt stacks measure-major, and the `filter` keeps present rows only. -/
def melt_subjects (event_types : List String)
    (configs : List (String × Option (List String))) (measures : List String)
    (rows : List SubjectsRow) : List MeltedRow :=
  measures.flatMap fun m =>
    rows.filterMap fun r =>
      let cell := (r.cells.lookup m).join
      if meltPresent event_types configs m cell then
        some { subject_id := some r.subject_id, timestamp := none,
               event_id := none, measurement_index := meltMeasIdx configs m,
               index := meltIndex event_types configs m cell, value := none }
      else none

/-- The cell an events-frame melt reads for measure `m`: the mandatory
`event_type` column, or a functional-time-dependent column. -/
def EventsRow.cellOf (r : EventsRow) (m : String) : Option String :=
  if m = "event_type" then some r.event_type else (r.cells.lookup m).join

/-- `melt_df` over `events_df` with id columns
`['subject_id', 'timestamp', 'event_id']`. -/
def melt_events (event_types : List String)
    (configs : List (String × Option (List String))) (measures : List String)
    (rows : List EventsRow) : List MeltedRow :=
  measures.flatMap fun m =>
    rows.filterMap fun r =>
      let cell := r.cellOf m
      if meltPresent event_types configs m cell then
        some { subject_id := some r.subject_id, timestamp := some r.timestamp,
               event_id := some r.event_id,
               measurement_index := meltMeasIdx configs m,
               index := meltIndex event_types configs m cell, value := none }
      else none

/-- `melt_df` over `dynamic_measurements_df` with id columns
`['event_id']`; a multivariate measure (one with an entry in
`valuesCols`) takes its value from its values column, the others the null
literal. -/
def melt_dynamic (event_types : List String)
    (configs : List (String × Option (List String)))
    (valuesCols : List (String × String)) (measures : List String)
    (rows : List DynRow) : List MeltedRow :=
  measures.flatMap fun m =>
    rows.filterMap fun r =>
      let cell := (r.cells.lookup m).join
      if meltPresent event_types configs m cell then
        some { subject_id := none, timestamp := none, event_id := some r.event_id,
               measurement_index := meltMeasIdx configs m,
               index := meltIndex event_types configs m cell,
               value := match valuesCols.lookup m with
                 | some vc => (r.vals.lookup vc).join
                 | none => none }
      else none

/-- The per-subject aggregate of the static melt (polars file, lines
973-978). -/
structure StaticAgg where
  static_measurement_indices : List (Option ℕ)
  static_indices : List (Option ℕ)
deriving DecidableEq, Repr

/-- Step 1 of `build_DL_cached_representation` (lines 973-978): melt the
subjects frame and group it by subject. -/
def static_data_of (event_types : List String)
    (configs : List (String × Option (List String))) (measures : List String)
    (rows : List SubjectsRow) : List (ℕ × StaticAgg) :=
  let melted := melt_subjects event_types configs measures rows
  ((melted.filterMap (·.subject_id)).dedup).map fun sid =>
    let grp := melted.filter (·.subject_id = some sid)
    (sid,
     { static_measurement_indices := grp.map (·.measurement_index),
       static_indices := grp.map (·.index) })

/-- The per-event aggregate of the diagonal concat of event and dynamic
melts, grouped by `event_id` (lines 991-997): first non-null timestamp
and subject, and the gathered index/value lists. -/
structure EventAgg where
  event_id : ℕ
  timestamp : Option ℤ
  subject_id : Option ℕ
  dynamic_measurement_indices : List (Option ℕ)
  dynamic_indices : List (Option ℕ)
  dynamic_values : List (Option ℚ)
deriving DecidableEq, Repr

/-- The per-subject aggregate of the event side (lines 998-1004).  `time`
is `(timestamp - timestamp.min()).dt.nanoseconds() / (1e9 * 60)`, null
where the timestamp is null. -/
structure SubjectEventsAgg where
  start_time : Option ℤ
  time : List (Option ℚ)
  dynamic_measurement_indices : List (List (Option ℕ))
  dynamic_indices : List (List (Option ℕ))
  dynamic_values : List (List (Option ℚ))
deriving DecidableEq, Repr

/-- The `sort('subject_id', 'timestamp')` order on the per-event
aggregates (nulls first, polars' default null ordering). -/
def eventAggLE (a b : EventAgg) : Bool :=
  match a.subject_id, b.subject_id with
  | none, _ => true
  | some _, none => false
  | some x, some y =>
    x < y || (x = y &&
      match a.timestamp, b.timestamp with
      | none, _ => true
      | some _, none => false
      | some s, some t => s ≤ t)

/-- Steps 2-4 of `build_DL_cached_representation` (lines 981-1004): melt
events and dynamic measurements, concat diagonally, group by `event_id`,
sort by subject and timestamp, and group by subject. -/
def event_data_of (event_types : List String)
    (configs : List (String × Option (List String)))
    (valuesCols : List (String × String))
    (ftd_measures dynamic_measures : List String) (events : List EventsRow)
    (dms : List DynRow) : List (ℕ × SubjectEventsAgg) :=
  let eventMelt :=
    melt_events event_types configs ("event_type" :: ftd_measures) events
  let dynMelt := melt_dynamic event_types configs valuesCols dynamic_measures dms
  let both := eventMelt ++ dynMelt
  let aggs : List EventAgg :=
    ((both.filterMap (·.event_id)).dedup).map fun eid =>
      let grp := both.filter (·.event_id = some eid)
      { event_id := eid,
        timestamp := (grp.filterMap (·.timestamp)).head?,
        subject_id := (grp.filterMap (·.subject_id)).head?,
        dynamic_measurement_indices := grp.map (·.measurement_index),
        dynamic_indices := grp.map (·.index),
        dynamic_values := grp.map (·.value) }
  let sorted := aggs.mergeSort eventAggLE
  ((sorted.filterMap (·.subject_id)).dedup).map fun sid =>
    let grp := sorted.filter (·.subject_id = some sid)
    let tmin := (grp.filterMap (·.timestamp)).foldr
      (fun t acc => some (match acc with | some a => min t a | none => t)) none
    (sid,
     { start_time := (grp.map (·.timestamp)).head?.join,
       time := grp.map fun a =>
         match a.timestamp, tmin with
         | some t, some t₀ => some (((t - t₀ : ℤ) : ℚ) / ((1000000000 : ℚ) * 60))
         | _, _ => none,
       dynamic_measurement_indices := grp.map (·.dynamic_measurement_indices),
       dynamic_indices := grp.map (·.dynamic_indices),
       dynamic_values := grp.map (·.dynamic_values) })

/-- `left.join(right, on=key, how='outer')` with the (coalesced) key:
every left row, paired with its right match if any, then the unmatched
right rows; the missing side of a row is null. -/
def outer_join {A B : Type} (left : List (ℕ × A)) (right : List (ℕ × B)) :
    List (ℕ × Option A × Option B) :=
  (left.map fun ka => (ka.1, some ka.2, right.lookup ka.1)) ++
    ((right.filter fun kb => ! decide (kb.1 ∈ left.map Prod.fst)).map
      fun kb => (kb.1, (none : Option A), some kb.2))

/-- `EventStreamDataset.build_DL_cached_representation` (polars file,
lines 940-1009, `do_sort_outputs=False`): the outer join of the grouped
static side with the grouped event side on `subject_id` (line 1006). -/
def build_DL_cached_representation (event_types : List String)
    (configs : List (String × Option (List String)))
    (valuesCols : List (String × String))
    (subject_measures ftd_measures dynamic_measures : List String)
    (subjects : List SubjectsRow) (events : List EventsRow)
    (dms : List DynRow) : List (ℕ × Option StaticAgg × Option SubjectEventsAgg) :=
  outer_join (static_data_of event_types configs subject_measures subjects)
    (event_data_of event_types configs valuesCols ftd_measures dynamic_measures
      events dms)

/-! ## The measurement transform pipeline:
`EventStreamDatasetBase.transform_measurements` (base file, lines 565-589)
with `EventStreamDataset._transform_numerical_measurement` (polars file,
lines 716-824), `_transform_categorical_measurement` (lines 826-876) and
the `update_attr_df` write-back, for one MULTIVARIATE_REGRESSION measure:
the stored table's slice is the measure's key column, its values column
and its `{measure}_is_inlier` column, keyed by `measurement_id`.

The pluggable outlier detector and normalizer live in the Preprocessing
module, which is not among the repository's files here; per spec §4.3 they
are opaque fit/predict transforms, so their `predict_from_polars` enters
the embedding as a function parameter from the fitted per-key parameter
record (an opaque rational here) and the value.  A null parameter record
propagates as polars propagates nulls: a null prediction. -/

/-- A float cell: null, the NaN sentinel, or a value. -/
inductive FV where
  | null | nan | val (q : ℚ)
deriving DecidableEq, Repr

/-- One row of the fitted `measurement_metadata` frame for one vocabulary
key. -/
structure TransformMetaRow where
  value_type : NumericValueType
  drop_lower_bound : Option ℚ
  drop_lower_bound_inclusive : Bool
  drop_upper_bound : Option ℚ
  drop_upper_bound_inclusive : Bool
  censor_lower_bound : Option ℚ
  censor_upper_bound : Option ℚ
  outlier_model : Option ℚ
  normalizer : Option ℚ
deriving DecidableEq, Repr

/-- One stored row of the measure's slice of
`dynamic_measurements_df`. -/
structure MeasRow where
  measurement_id : ℕ
  key : Option String
  val : FV
  inlier : Option Bool
deriving DecidableEq, Repr

/-- `drop_or_censor` lifted to a float cell: null and NaN fail every
comparison of the chain and fall through unchanged; a dropped value
becomes the NaN sentinel. -/
def FV.applyBounds (m : TransformMetaRow) : FV → FV
  | .null => .null
  | .nan => .nan
  | .val v =>
    match drop_or_censor v m.drop_lower_bound m.drop_lower_bound_inclusive
        m.drop_upper_bound m.drop_upper_bound_inclusive
        m.censor_lower_bound m.censor_upper_bound with
    | none => .nan
    | some w => .val w

/-- `vals_col.round(0)` on a float cell (polars round propagates null and
NaN). -/
def FV.round : FV → FV
  | .null => .null
  | .nan => .nan
  | .val v => .val ((plRound v : ℤ) : ℚ)

/-- Decimal rendering of a float value, as `cast(pl.Utf8)` performs it
(the exact digit string is abstracted; only its injectivity from the
`"{key}__EQ_"` shape matters to the theorems). -/
def ratStr (q : ℚ) : String := toString q

/-- The key-column rewrite of `_transform_numerical_measurement` (polars
file, lines 757-770): `DROPPED` keeps the key; `CATEGORICAL_INTEGER`
appends `"__EQ_" + vals.round(0).fill_nan(-1).cast(pl.Int64).cast(pl.Utf8)`
(a null value makes the concatenation null); `CATEGORICAL_FLOAT` appends
the value's decimal rendering (`NaN` for the NaN sentinel); anything else
keeps the key. -/
def rewriteKey (vt : NumericValueType) (k : String) (v : FV) : Option String :=
  match vt with
  | .dropped => some k
  | .categoricalInteger =>
    match v with
    | .null => none
    | .nan => some (k ++ "__EQ_" ++ "-1")
    | .val q => some (k ++ "__EQ_" ++ toString (plRound q))
  | .categoricalFloat =>
    match v with
    | .null => none
    | .nan => some (k ++ "__EQ_" ++ "NaN")
    | .val q => some (k ++ "__EQ_" ++ ratStr q)
  | _ => some k

/-- The value-column rewrite (polars file, lines 772-783): categorical and
dropped keys give the NaN sentinel, `INTEGER` rounds, the rest pass
through. -/
def rewriteVal (vt : NumericValueType) (v : FV) : FV :=
  match vt with
  | .dropped => .nan
  | .categoricalInteger => .nan
  | .categoricalFloat => .nan
  | .integer => v.round
  | .float => v

/-- A source row joined (on the original key, by
`_prep_numerical_source`, polars file line 407) with its metadata row. -/
structure JoinedRow where
  row : MeasRow
  meta : Option TransformMetaRow
deriving DecidableEq, Repr

/-- Steps 1-4 of `_transform_numerical_measurement` for one row: join the
metadata on the key, apply the bound policy, rewrite key and value by the
value type.  An unmatched key joins all-null metadata columns, every
`when` condition of the chains is null and falsy, and the row passes
through unchanged. -/
def numericRewrite (md : List (String × TransformMetaRow)) (r : MeasRow) :
    JoinedRow :=
  match r.key with
  | none => { row := r, meta := none }
  | some k =>
    match md.lookup k with
    | none => { row := r, meta := none }
    | some m =>
      let v1 := FV.applyBounds m r.val
      let r' := { r with key := rewriteKey m.value_type k v1,
                         val := rewriteVal m.value_type v1 }
      { row := r', meta := some m }

/-- `null_idx = keys_col.is_null() | vals_col.is_null() | vals_col.is_nan()`
(polars file, line 787). -/
def isNullIdx (r : MeasRow) : Bool :=
  r.key.isNone || decide (r.val = .null) || decide (r.val = .nan)

/-- `EventStreamDataset._transform_numerical_measurement` (polars file,
lines 716-824) over the null-dropped source rows: the per-row join and
rewrite, the null/present split, the optional outlier stage (step 5: a
flagged row's value becomes NaN and the row moves to the null side; a row
whose prediction is null — an unmatched key's null parameters — is
silently dropped by the two filters), the optional normalizer stage (step
6, applied to the surviving present rows; null parameters give a null
value), and the final vstack.  The joined metadata columns are dropped at
the end (`cols_to_drop_at_end`), leaving the stored columns. -/
def transform_numerical_measurement (oc : Option (ℚ → ℚ → Bool))
    (nc : Option (ℚ → ℚ → ℚ)) (md : List (String × TransformMetaRow))
    (src : List MeasRow) : List MeasRow :=
  let joined := src.map (numericRewrite md)
  let pres := joined.filter fun j => ! isNullIdx j.row
  let nul := joined.filter fun j => isNullIdx j.row
  let step5 : List JoinedRow × List JoinedRow :=
    match oc with
    | none => (pres, nul)
    | some f =>
      let nul := nul.map fun j => { j with row := { j.row with inlier := none } }
      let pres := pres.map fun j =>
        let inl : Option Bool :=
          match j.row.val, j.meta.bind (·.outlier_model) with
          | .val v, some p => some (! f p v)
          | _, _ => none
        let r' := { j.row with inlier := inl,
                               val := if inl = some true then j.row.val else FV.nan }
        { j with row := r' }
      (pres.filter fun j => j.row.inlier = some true,
       nul ++ pres.filter fun j => j.row.inlier = some false)
  let pres' :=
    match nc with
    | none => step5.1
    | some g =>
      step5.1.map fun j =>
        { j with row := { j.row with val :=
            match j.row.val, j.meta.bind (·.normalizer) with
            | .val v, some p => .val (g p v)
            | _, _ => .null } }
  (pres' ++ step5.2).map (·.row)

/-- One row of `EventStreamDataset._transform_categorical_measurement`
(polars file, lines 826-876), MULTIVARIATE_REGRESSION branch: a non-null
key outside the fitted vocabulary maps the values column to NaN and the
key to `UNK`; a null key stays null and keeps its value (the `~is_in`
condition is null and falsy). -/
def catRow (vocab : List String) (r : MeasRow) : MeasRow :=
  let val' := match r.key with
    | none => r.val
    | some k => if k ∈ vocab then r.val else FV.nan
  let key' := match r.key with
    | none => none
    | some k => if k ∈ vocab then some k else some "UNK"
  { r with key := key', val := val' }

/-- `EventStreamDataset._transform_categorical_measurement` over the
frame: the row map. -/
def transform_categorical_measurement (vocab : List String)
    (rows : List MeasRow) : List MeasRow :=
  rows.map (catRow vocab)

/-- The write-back of `transform_measurements` through `update_attr_df`:
the updated columns (the key column, the values column and — when an
outlier detector is configured — the inlier column) are nulled in the
stored table, then the transformed rows' non-null values overwrite them
for matching `measurement_id`s. -/
def transform_writeback (updInlier : Bool) (tbl src : List MeasRow) :
    List MeasRow :=
  tbl.map fun r0 =>
    let r1 : MeasRow := { r0 with key := none, val := .null,
                                  inlier := if updInlier then none else r0.inlier }
    match src.find? (fun s => s.measurement_id = r0.measurement_id) with
    | none => r1
    | some s =>
      { r1 with
        key := match s.key with | some k => some k | none => r1.key,
        val := match s.val with | .null => r1.val | v => v,
        inlier := if updInlier then
            (match s.inlier with | some b => some b | none => r1.inlier)
          else r1.inlier }

/-- One measure's pass of `transform_measurements` (base file, lines
565-589): drop the null keys from the source, run the numerical
transform, run the categorical transform when the fitted config has a
vocabulary, and write the updated columns back into the stored table. -/
def transform_measurements_table (oc : Option (ℚ → ℚ → Bool))
    (nc : Option (ℚ → ℚ → ℚ)) (md : List (String × TransformMetaRow))
    (vocab : Option (List String)) (tbl : List MeasRow) : List MeasRow :=
  let src := tbl.filter (·.key.isSome)
  let src := transform_numerical_measurement oc nc md src
  let src :=
    match vocab with
    | some vs => transform_categorical_measurement vs src
    | none => src
  transform_writeback oc.isSome tbl src

/-- Derived (proof infrastructure, not a source function): the key/value
outcome of the numeric rewrite of `numericRewrite` on one non-null key
cell. -/
def numericPair (md : List (String × TransformMetaRow)) (k : String)
    (v : FV) : Option String × FV :=
  match md.lookup k with
  | none => (some k, v)
  | some m =>
    let vb := FV.applyBounds m v
    (rewriteKey m.value_type k vb, rewriteVal m.value_type vb)

/-- Derived (proof infrastructure, not a source function): the key/value
outcome of the numeric rewrite followed by the categorical rewrite (when a
vocabulary is fitted) on one non-null key cell, with no outlier detector
and no normalizer configured. -/
def kvStep (md : List (String × TransformMetaRow))
    (vocab? : Option (List String)) (k : String) (v : FV) :
    Option String × FV :=
  let p1 := numericPair md k v
  match vocab? with
  | none => p1
  | some vs =>
    match p1.1 with
    | none => (none, p1.2)
    | some k1 => if k1 ∈ vs then (some k1, p1.2) else (some "UNK", FV.nan)

/-- The censor-only clamp `drop_or_censor` performs when neither drop
bound is set. -/
def censorClamp (cl? cu? : Option ℚ) (v : ℚ) : ℚ :=
  match cl?, cu? with
  | some cl, some cu => if v < cl then cl else if cu < v then cu else v
  | some cl, none => if v < cl then cl else v
  | none, some cu => if cu < v then cu else v
  | none, none => v

/-- Derived (proof infrastructure, not a source function): the row-level
outcome of one transform pass with no outlier detector and no normalizer,
used to characterize `transform_measurements_table none none`. -/
def transformRowFn (md : List (String × TransformMetaRow))
    (vocab? : Option (List String)) (r : MeasRow) : MeasRow :=
  match r.key with
  | none => { r with key := none, val := FV.null }
  | some k =>
    let p := kvStep md vocab? k r.val
    { r with key := p.1, val := p.2 }

/-! # Theorems -/

theorem dropLowerViolated_iff (v : ℚ) (b? : Option ℚ) (incl : Bool) :
    dropLowerViolated v b? incl = true ↔
      ∃ b, b? = some b ∧ (v < b ∨ (v = b ∧ incl = true)) := by
  cases b? <;> simp [dropLowerViolated]

theorem dropUpperViolated_iff (v : ℚ) (b? : Option ℚ) (incl : Bool) :
    dropUpperViolated v b? incl = true ↔
      ∃ b, b? = some b ∧ (b < v ∨ (v = b ∧ incl = true)) := by
  cases b? <;> simp [dropUpperViolated]

theorem censorLowerViolated_iff (v : ℚ) (b? : Option ℚ) :
    censorLowerViolated v b? = true ↔ ∃ b, b? = some b ∧ v < b := by
  cases b? <;> simp [censorLowerViolated]

theorem censorUpperViolated_iff (v : ℚ) (b? : Option ℚ) :
    censorUpperViolated v b? = true ↔ ∃ b, b? = some b ∧ b < v := by
  cases b? <;> simp [censorUpperViolated]

/-- **C2.** For every value and per-key bound configuration,
`drop_or_censor` returns the missing sentinel iff the value violates a
drop bound (strictly outside it, or equal to it when the bound is
inclusive); when no drop bound is violated it returns the censor lower
bound when the value is below it, else the censor upper bound when the
value is above it, and it returns the value unchanged exactly when no
censor bound is violated either.  Absent (`none`) bounds impose no
condition, and a value outside a drop bound is never clamped to a censor
bound, because the drop conditions come first in the `when/then` chain. -/
theorem drop_or_censor_characterization (v : ℚ) (dlb : Option ℚ) (dlbi : Bool)
    (dub : Option ℚ) (dubi : Bool) (clb cub : Option ℚ) :
    (drop_or_censor v dlb dlbi dub dubi clb cub = none ↔
      (dropLowerViolated v dlb dlbi || dropUpperViolated v dub dubi) = true) ∧
    ((dropLowerViolated v dlb dlbi || dropUpperViolated v dub dubi) = false →
      (∀ b, clb = some b → v < b →
        drop_or_censor v dlb dlbi dub dubi clb cub = some b) ∧
      (censorLowerViolated v clb = false → ∀ b, cub = some b → b < v →
        drop_or_censor v dlb dlbi dub dubi clb cub = some b) ∧
      (drop_or_censor v dlb dlbi dub dubi clb cub = some v ↔
        (censorLowerViolated v clb || censorUpperViolated v cub) = false)) := by
  have hchain : (dropLowerViolated v dlb dlbi || dropUpperViolated v dub dubi) = false →
      drop_or_censor v dlb dlbi dub dubi clb cub =
        if censorLowerViolated v clb = true then clb
        else if censorUpperViolated v cub = true then cub
        else some v := by
    intro h
    obtain ⟨h1, h2⟩ := Bool.or_eq_false_iff.mp h
    simp [drop_or_censor, h1, h2]
  constructor
  · constructor
    · intro hnone
      by_contra hor
      have hf : (dropLowerViolated v dlb dlbi || dropUpperViolated v dub dubi) = false := by
        cases hb : (dropLowerViolated v dlb dlbi || dropUpperViolated v dub dubi) <;>
          simp_all
      rw [hchain hf] at hnone
      split_ifs at hnone with h3 h4
      · obtain ⟨b, hb', _⟩ := (censorLowerViolated_iff v clb).mp h3
        simp [hb'] at hnone
      · obtain ⟨b, hb', _⟩ := (censorUpperViolated_iff v cub).mp h4
        simp [hb'] at hnone
    · intro hor
      rcases Bool.or_eq_true_iff.mp hor with h' | h'
      · simp [drop_or_censor, h']
      · by_cases h1 : dropLowerViolated v dlb dlbi = true <;> simp [drop_or_censor, h1, h']
  · intro hf
    refine ⟨?_, ?_, ?_⟩
    · intro b hb hvb
      rw [hchain hf]
      have h3 : censorLowerViolated v clb = true :=
        (censorLowerViolated_iff v clb).mpr ⟨b, hb, hvb⟩
      rw [if_pos h3]
      exact hb
    · intro h3 b hb hbv
      rw [hchain hf]
      have h4 : censorUpperViolated v cub = true :=
        (censorUpperViolated_iff v cub).mpr ⟨b, hb, hbv⟩
      rw [if_neg (by simp [h3]), if_pos h4]
      exact hb
    · rw [hchain hf]
      constructor
      · intro hv
        by_cases h3 : censorLowerViolated v clb = true
        · obtain ⟨b, hb', hvb⟩ := (censorLowerViolated_iff v clb).mp h3
          rw [if_pos h3, hb'] at hv
          exact absurd (Option.some_injective ℚ hv).symm (ne_of_lt hvb)
        · by_cases h4 : censorUpperViolated v cub = true
          · obtain ⟨b, hb', hbv⟩ := (censorUpperViolated_iff v cub).mp h4
            simp only [h3, if_false, if_pos h4] at hv
            rw [hb'] at hv
            exact absurd (Option.some_injective ℚ hv).symm (ne_of_gt hbv)
          · simp [h3, h4]
      · intro hcv
        obtain ⟨h3, h4⟩ := Bool.or_eq_false_iff.mp hcv
        simp [h3, h4]

/-- **C9** (the bug, evaluated).  The float branch of `_validate_id_col`
binds as `(not all-integral) and (all-nonnegative)`, so the unique float
id column `[-1.0, 2.0]` — all-integral, not all-nonnegative — passes the
explicit non-negative-integer validation (no `notNonnegInt` error is
raised) and only the subsequent strict unsigned cast fails; likewise for
`[-1.5]`, which is neither all-integral nor all-nonnegative.  The claim
(and spec §7) expect the validation itself to reject both. -/
theorem validate_id_col_negative_float_slips_through :
    validate_id_col .float [-1, 2] ≠ .error .notNonnegInt ∧
    validate_id_col .float [-1, 2] = .error .castFail ∧
    validate_id_col .float [-(3/2)] ≠ .error .notNonnegInt ∧
    validate_id_col .float [-(3/2)] = .error .castFail ∧
    validate_id_col .float [3/2, 2] = .error .notNonnegInt ∧
    validate_id_col .float [1, 2] = .ok ([1, 2], .uint8) := by
  decide

/-- **C4.**  In the `fit_measurements` loop body, for a non-dropped
configured measurement whose column is present in its source table: if
`total_possible` (row count, or distinct owning-event count for DYNAMIC
measurements) is 0 the inferred config is dropped with no observation
frequency recorded (no division is performed); if the observed total
falls below the `min_valid_column_observations` count-or-proportion
threshold the config is dropped; otherwise the config records
`observation_frequency = total_observed / total_possible` and is not
dropped by these checks — it can only still be dropped by the later
vocabulary step, which collapses the fitted vocabulary to `['UNK']`. -/
theorem fit_one_observation_frequency (cfg : FitConfig)
    (fitMeta : String → Except String Unit)
    (fitVocab : String → Option (List String))
    (filterVocab : ℕ → CountOrProportion → List String → List String)
    (inp : FitMeasureInput) (hpres : inp.present = true) :
    ((total_possible_and_observed inp.temporality inp.rows).1 = 0 →
      (fit_one cfg fitMeta fitVocab filterVocab inp).1.isDropped = true ∧
      (fit_one cfg fitMeta fitVocab filterVocab inp).1.observation_frequency = none) ∧
    ((total_possible_and_observed inp.temporality inp.rows).1 ≠ 0 →
      lt_count_or_proportion_int (total_possible_and_observed inp.temporality inp.rows).2
        cfg.min_valid_column_observations
        (total_possible_and_observed inp.temporality inp.rows).1 = true →
      (fit_one cfg fitMeta fitVocab filterVocab inp).1.isDropped = true) ∧
    ((total_possible_and_observed inp.temporality inp.rows).1 ≠ 0 →
      lt_count_or_proportion_int (total_possible_and_observed inp.temporality inp.rows).2
        cfg.min_valid_column_observations
        (total_possible_and_observed inp.temporality inp.rows).1 = false →
      (fit_one cfg fitMeta fitVocab filterVocab inp).1.observation_frequency =
        some (((total_possible_and_observed inp.temporality inp.rows).2 : ℚ) /
          ((total_possible_and_observed inp.temporality inp.rows).1 : ℚ)) ∧
      ((fit_one cfg fitMeta fitVocab filterVocab inp).1.isDropped = true →
        (fit_one cfg fitMeta fitVocab filterVocab inp).1.vocabulary = some ["UNK"])) := by
  refine ⟨?_, ?_, ?_⟩
  · intro h0
    simp only [fit_one, hpres]
    simp [h0]
  · intro h0 hlt
    simp only [fit_one, hpres]
    simp [h0, hlt]
  · intro h0 hlt
    simp only [fit_one, hpres]
    rw [if_neg (not_not_intro trivial), if_neg h0]
    simp only [hlt, Bool.false_eq_true, if_false]
    cases hm : (if inp.isNumeric = true then fitMeta inp.measure else Except.ok ()) with
    | error e => simp
    | ok u =>
      by_cases hv : inp.vocabCfg = none
      · simp only [hv, if_pos rfl]
        cases hb : fitVocab inp.measure with
        | none => simp
        | some voc =>
          cases cfg.min_valid_vocab_element_observations with
          | none =>
            by_cases hu : voc = ["UNK"] <;> simp [hu]
          | some c =>
            by_cases hu : filterVocab (inp.rows.filter (·.observed)).length c voc = ["UNK"] <;>
              simp [hu]
      · simp [hv]

/-- Witness for the C4 theorem at a concrete dynamic measurement with
three source rows over two events: `total_possible = total_observed = 2`,
the threshold `count 2` is met, and the fitted vocabulary survives. -/
theorem fit_one_observation_frequency_witness :
    (fit_one ⟨some (.count 2), none⟩ (fun _ => .ok ()) (fun _ => some ["UNK", "a"])
      (fun _ _ v => v)
      ⟨"m", false, false, none, .dynamic, true, [⟨0, true⟩, ⟨1, true⟩, ⟨1, false⟩]⟩).1.observation_frequency =
      some 1 :=
  ((fit_one_observation_frequency ⟨some (.count 2), none⟩ (fun _ => .ok ())
    (fun _ => some ["UNK", "a"]) (fun _ _ v => v)
    ⟨"m", false, false, none, .dynamic, true, [⟨0, true⟩, ⟨1, true⟩, ⟨1, false⟩]⟩
    rfl).2.2 (by decide) (by decide)).1

/-- **C1, counterexample.**  With two non-dropped configured measures, the
first numeric and its metadata fit raising, `fit_measurements` re-raises
the wrapped error at once: the second measure is never processed (it gets
no inferred entry) and the fit-complete flag is left `false` — the claim
says the loop would continue to the remaining columns and the flag would
still become true. -/
theorem fit_measurements_first_error_stops_loop :
    (fit_measurements ⟨none, none⟩ (fun _ => .error "boom") (fun _ => none)
        (fun _ _ v => v)
        [⟨"m1", false, true, none, .static, true, [⟨0, true⟩]⟩,
         ⟨"m2", false, false, none, .static, true, [⟨0, true⟩]⟩]).2 =
      some ⟨"m1", "boom"⟩ ∧
    (fit_measurements ⟨none, none⟩ (fun _ => .error "boom") (fun _ => none)
        (fun _ _ v => v)
        [⟨"m1", false, true, none, .static, true, [⟨0, true⟩]⟩,
         ⟨"m2", false, false, none, .static, true, [⟨0, true⟩]⟩]).1.isFit = false ∧
    ((fit_measurements ⟨none, none⟩ (fun _ => .error "boom") (fun _ => none)
        (fun _ _ v => v)
        [⟨"m1", false, true, none, .static, true, [⟨0, true⟩]⟩,
         ⟨"m2", false, false, none, .static, true, [⟨0, true⟩]⟩]).1.inferred.map
      Prod.fst) = ["m1"] := by
  decide

theorem fit_one_some_error (cfg : FitConfig) (fm : String → Except String Unit)
    (fv : String → Option (List String))
    (fl : ℕ → CountOrProportion → List String → List String)
    (inp : FitMeasureInput) (entry : InferredConfig) (e : String)
    (h : fit_one cfg fm fv fl inp = (entry, some e)) :
    inp.isNumeric = true ∧ fm inp.measure = .error e := by
  by_cases hp : inp.present = true
  case neg => simp [fit_one, hp] at h
  by_cases h0 : (total_possible_and_observed inp.temporality inp.rows).1 = 0
  case pos => simp [fit_one, hp, h0] at h
  by_cases hlt : lt_count_or_proportion_int
      (total_possible_and_observed inp.temporality inp.rows).2
      cfg.min_valid_column_observations
      (total_possible_and_observed inp.temporality inp.rows).1 = true
  case pos => simp [fit_one, hp, h0, hlt] at h
  cases hs : (if inp.isNumeric = true then fm inp.measure else Except.ok ()) with
  | error e₁ =>
    have hni : inp.isNumeric = true := by
      by_contra hni
      rw [if_neg hni] at hs
      exact Except.noConfusion hs
    rw [hni, if_pos rfl] at hs
    refine ⟨hni, ?_⟩
    simp [fit_one, hp, h0, hlt, hni, hs, Prod.mk.injEq, Option.some.injEq] at h
    rw [hs, h.2]
  | ok u =>
    cases hv : inp.vocabCfg with
    | some vs => simp [fit_one, hp, h0, hlt, hs, hv] at h
    | none =>
      cases hfv : fv inp.measure with
      | none => simp [fit_one, hp, h0, hlt, hs, hv, hfv] at h
      | some voc =>
        by_cases hu : (match cfg.min_valid_vocab_element_observations with
            | some c => fl (inp.rows.filter (·.observed)).length c voc
            | none => voc) = ["UNK"] <;>
          simp [fit_one, hp, h0, hlt, hs, hv, hfv, hu] at h

theorem lookup_eq_none_of_not_mem {β : Type} (k : String)
    (l : List (String × β)) (h : k ∉ l.map Prod.fst) : l.lookup k = none := by
  induction l with
  | nil => rfl
  | cons p rest ih =>
    simp only [List.map_cons, List.mem_cons, not_or] at h
    cases p with
    | mk a b =>
      have hne : (k == a) = false := by simpa using h.1
      simp [List.lookup, hne, ih h.2]

theorem nodup_split_not_mem {α β : Type} (f : α → β) (pre : List α) (inp : α)
    (post : List α) (h : ((pre ++ inp :: post).map f).Nodup) (j : α)
    (hj : j ∈ post) : f j ∉ (pre ++ [inp]).map f := by
  rw [List.map_append, List.map_cons, List.nodup_append] at h
  obtain ⟨_, h2, hdisj⟩ := h
  intro hmem
  rw [List.map_append] at hmem
  rcases List.mem_append.mp hmem with hm | hm
  · exact hdisj hm (List.mem_cons_of_mem _ (List.mem_map_of_mem f hj))
  · simp only [List.map_cons, List.map_nil, List.mem_singleton] at hm
    rw [List.nodup_cons] at h2
    exact h2.1 (hm ▸ List.mem_map_of_mem f hj)

theorem fit_measurements_go_error (cfg : FitConfig)
    (fm : String → Except String Unit) (fv : String → Option (List String))
    (fl : ℕ → CountOrProportion → List String → List String) :
    ∀ (inputs : List FitMeasureInput) (acc : List (String × InferredConfig))
      (st : FitState) (err : FitError),
      fit_measurements_go cfg fm fv fl acc inputs = (st, some err) →
      st.isFit = false ∧
      ∃ pre inp post, inputs = pre ++ inp :: post ∧ inp.measure = err.measure ∧
        inp.isNumeric = true ∧ fm inp.measure = .error err.cause ∧
        ∀ m, m ∈ st.inferred.map Prod.fst →
          m ∈ acc.map Prod.fst ∨ m ∈ (pre ++ [inp]).map (·.measure)
  | [], acc, st, err => by
    intro h
    simp [fit_measurements_go] at h
  | inp :: rest, acc, st, err => by
    intro h
    simp only [fit_measurements_go] at h
    by_cases hd : inp.isDroppedCfg = true
    · rw [if_pos hd] at h
      obtain ⟨hfit, pre, inp', post, hsplit, h1, h2, h3, h4⟩ :=
        fit_measurements_go_error cfg fm fv fl rest acc st err h
      refine ⟨hfit, inp :: pre, inp', post, by rw [hsplit]; rfl, h1, h2, h3, ?_⟩
      intro m hm
      rcases h4 m hm with hc | hc
      · exact Or.inl hc
      · right
        simp only [List.cons_append, List.map_cons, List.mem_cons]
        exact Or.inr hc
    · rw [if_neg hd] at h
      rcases hfo : fit_one cfg fm fv fl inp with ⟨entry, err?⟩
      rw [hfo] at h
      cases err? with
      | some e =>
        obtain ⟨hst, herr⟩ := Prod.mk.injEq .. ▸ h
        obtain ⟨hni, hfm⟩ := fit_one_some_error cfg fm fv fl inp entry e hfo
        obtain rfl : err = ⟨inp.measure, e⟩ := (Option.some_injective _ herr).symm
        refine ⟨by rw [← hst], [], inp, rest, rfl, rfl, hni, hfm, ?_⟩
        intro m hm
        rw [← hst] at hm
        simp only [List.map_append, List.mem_append] at hm
        rcases hm with hm | hm
        · exact Or.inl hm
        · right
          simpa using hm
      | none =>
        obtain ⟨hfit, pre, inp', post, hsplit, h1, h2, h3, h4⟩ :=
          fit_measurements_go_error cfg fm fv fl rest
            (acc ++ [(inp.measure, entry)]) st err h
        refine ⟨hfit, inp :: pre, inp', post, by rw [hsplit]; rfl, h1, h2, h3, ?_⟩
        intro m hm
        rcases h4 m hm with hc | hc
        · rw [List.map_append, List.mem_append] at hc
          rcases hc with hc | hc
          · exact Or.inl hc
          · right
            simp only [List.cons_append, List.map_cons, List.mem_cons]
            left
            simpa using hc
        · right
          simp only [List.cons_append, List.map_cons, List.mem_cons]
          exact Or.inr hc

/-- **C1 (amended).**  When `_fit_measurement_metadata` raises while
fitting one numeric column, `fit_measurements` catches the exception and
re-raises it wrapped with that column's name — but the wrapped error
propagates out of the per-column loop: the call aborts, the columns after
the failing one receive no inferred config at all, and the dataset-level
fit-complete flag is left `false` (it is only set after the whole loop). -/
theorem fit_measurements_error_wraps_and_aborts (cfg : FitConfig)
    (fm : String → Except String Unit) (fv : String → Option (List String))
    (fl : ℕ → CountOrProportion → List String → List String)
    (inputs : List FitMeasureInput) (st : FitState) (err : FitError)
    (hnodup : (inputs.map (·.measure)).Nodup)
    (h : fit_measurements cfg fm fv fl inputs = (st, some err)) :
    st.isFit = false ∧
    ∃ pre inp post, inputs = pre ++ inp :: post ∧ inp.measure = err.measure ∧
      inp.isNumeric = true ∧ fm inp.measure = .error err.cause ∧
      ∀ j ∈ post, st.inferred.lookup j.measure = none := by
  obtain ⟨hfit, pre, inp, post, hsplit, h1, h2, h3, h4⟩ :=
    fit_measurements_go_error cfg fm fv fl inputs [] st err h
  refine ⟨hfit, pre, inp, post, hsplit, h1, h2, h3, fun j hj => ?_⟩
  apply lookup_eq_none_of_not_mem
  intro hmem
  rcases h4 _ hmem with hc | hc
  · simp at hc
  · exact (nodup_split_not_mem (·.measure) pre inp post (hsplit ▸ hnodup) j hj) hc

/-- Witness for the amended C1 theorem at the concrete two-measure
instance: the error wraps `"m1"`, the loop aborts, `"m2"` gets no
inferred entry and the flag stays `false`. -/
theorem fit_measurements_error_wraps_and_aborts_witness :
    (FitState.mk [("m1", ⟨false, some 1, none⟩)] false).isFit = false ∧
    ∃ pre inp post,
      [(⟨"m1", false, true, none, .static, true, [⟨0, true⟩]⟩ : FitMeasureInput),
       ⟨"m2", false, false, none, .static, true, [⟨0, true⟩]⟩] =
        pre ++ inp :: post ∧
      inp.measure = (FitError.mk "m1" "boom").measure ∧ inp.isNumeric = true ∧
      (fun _ : String => (Except.error "boom" : Except String Unit)) inp.measure =
        .error (FitError.mk "m1" "boom").cause ∧
      ∀ j ∈ post,
        (FitState.mk [("m1", ⟨false, some 1, none⟩)] false).inferred.lookup
          j.measure = none :=
  fit_measurements_error_wraps_and_aborts ⟨none, none⟩
    (fun _ => .error "boom") (fun _ => none) (fun _ _ v => v)
    [⟨"m1", false, true, none, .static, true, [⟨0, true⟩]⟩,
     ⟨"m2", false, false, none, .static, true, [⟨0, true⟩]⟩]
    ⟨[("m1", ⟨false, some 1, none⟩)], false⟩ ⟨"m1", "boom"⟩ (by decide) (by decide)

/-- **C6, counterexample.**  A stored row whose id does not appear in the
transformed dataframe does not keep its previous values in the updated
columns: `update_attr_df` first nulls every updated column, and the
update join never restores an unmatched row, so its `"a"` cell goes from
`5` to null (the untouched column `"b"` survives). -/
theorem update_attr_df_nulls_unmatched_rows :
    update_attr_df [⟨0, [("a", some 5), ("b", some 7)]⟩] [] ["a"] =
      [⟨0, [("a", none), ("b", some 7)]⟩] ∧
    update_attr_df [⟨0, [("a", some 5), ("b", some 7)]⟩] [] ["a"] ≠
      [⟨0, [("a", some 5), ("b", some 7)]⟩] := by
  decide

theorem lookup_head_ne {β : Type} (c a : String) (b : β) (rest : List (String × β))
    (h : ¬ c = a) : ((a, b) :: rest).lookup c = rest.lookup c := by
  have hne : (c == a) = false := by simpa using h
  simp [List.lookup, hne]

theorem lookup_head_eq {β : Type} (c : String) (b : β) (rest : List (String × β)) :
    ((c, b) :: rest).lookup c = some b := by
  simp [List.lookup]

theorem lookup_append_cases {β : Type} (c : String) (l₁ l₂ : List (String × β)) :
    (l₁ ++ l₂).lookup c =
      match l₁.lookup c with
      | some v => some v
      | none => l₂.lookup c := by
  induction l₁ with
  | nil => simp [List.lookup]
  | cons p rest ih =>
    rcases p with ⟨a, b⟩
    by_cases hc : c = a
    · subst hc
      simp only [List.cons_append, lookup_head_eq]
    · simp only [List.cons_append, lookup_head_ne c a b _ hc, ih]

theorem lookup_replace_same {β : Type} (cells : List (String × β)) (c : String)
    (v : β) (h : c ∈ cells.map Prod.fst) :
    (cells.map fun kv => if kv.1 = c then (kv.1, v) else kv).lookup c = some v := by
  induction cells with
  | nil => simp at h
  | cons p rest ih =>
    rcases p with ⟨a, b⟩
    by_cases hc : a = c
    · subst hc
      rw [List.map_cons, if_pos rfl]
      exact lookup_head_eq a v _
    · have hc' : ¬ c = a := fun hh => hc hh.symm
      rw [List.map_cons, if_neg hc, lookup_head_ne c a b _ hc']
      apply ih
      simp only [List.map_cons, List.mem_cons] at h
      rcases h with h | h
      · exact absurd h hc'
      · exact h

theorem lookup_replace_other {β : Type} (cells : List (String × β)) (c c' : String)
    (v : β) (h : ¬ c = c') :
    (cells.map fun kv => if kv.1 = c' then (kv.1, v) else kv).lookup c =
      cells.lookup c := by
  induction cells with
  | nil => simp
  | cons p rest ih =>
    rcases p with ⟨a, b⟩
    by_cases hac : a = c'
    · subst hac
      rw [List.map_cons, if_pos rfl, lookup_head_ne c a v _ h,
        lookup_head_ne c a b _ h, ih]
    · rw [List.map_cons, if_neg hac]
      by_cases hca : c = a
      · subst hca
        rw [lookup_head_eq, lookup_head_eq]
      · rw [lookup_head_ne c a b _ hca, lookup_head_ne c a b _ hca, ih]

theorem getCell_setCell_same (r : AttrRow) (c : String) (v : Option ℚ) :
    (r.setCell c v).getCell c = v := by
  unfold AttrRow.setCell AttrRow.getCell
  by_cases hc : c ∈ r.cells.map Prod.fst
  · rw [if_pos hc]
    simp only
    rw [lookup_replace_same r.cells c v hc]
    rfl
  · rw [if_neg hc]
    simp only
    rw [lookup_append_cases, lookup_eq_none_of_not_mem c r.cells hc, lookup_head_eq]
    rfl

theorem getCell_setCell_other (r : AttrRow) (c c' : String) (v : Option ℚ)
    (h : ¬ c = c') : (r.setCell c' v).getCell c = r.getCell c := by
  unfold AttrRow.setCell AttrRow.getCell
  by_cases hc : c' ∈ r.cells.map Prod.fst
  · rw [if_pos hc]
    simp only
    rw [lookup_replace_other r.cells c c' v h]
  · rw [if_neg hc]
    simp only
    rw [lookup_append_cases]
    cases hlc : r.cells.lookup c with
    | some w => rfl
    | none => rw [lookup_head_ne c c' v _ h]; rfl

theorem getCell_foldl_null (cols : List String) (r : AttrRow) (c : String) :
    (cols.foldl (fun r c => r.setCell c none) r).getCell c =
      if c ∈ cols then none else r.getCell c := by
  induction cols generalizing r with
  | nil => simp
  | cons c' rest ih =>
    rw [List.foldl_cons, ih]
    by_cases hc : c ∈ rest
    · simp [hc, List.mem_cons]
    · by_cases hcc : c = c'
      · subst hcc
        simp [hc, getCell_setCell_same]
      · simp [hc, hcc, getCell_setCell_other r c c' none hcc]

theorem getCell_foldl_upd (nr : AttrRow) (cols : List String) (r : AttrRow)
    (c : String) :
    (cols.foldl (fun r c => match nr.getCell c with
      | some v => r.setCell c (some v)
      | none => r) r).getCell c =
      if c ∈ cols then
        (match nr.getCell c with | some v => some v | none => r.getCell c)
      else r.getCell c := by
  induction cols generalizing r with
  | nil => simp
  | cons c'' rest ih =>
    rw [List.foldl_cons, ih]
    by_cases hc : c ∈ rest
    · rw [if_pos hc, if_pos (List.mem_cons_of_mem _ hc)]
      cases hnr : nr.getCell c with
      | some v => rfl
      | none =>
        simp only
        by_cases hcc : c = c''
        · subst hcc
          rw [hnr]
        · cases hnr' : nr.getCell c'' with
          | some w => exact getCell_setCell_other r c c'' (some w) hcc
          | none => rfl
    · rw [if_neg hc]
      by_cases hcc : c = c''
      · subst hcc
        rw [if_pos (List.mem_cons_self c rest)]
        cases hnr : nr.getCell c with
        | some v => exact getCell_setCell_same r c (some v)
        | none => rfl
      · rw [if_neg (by simp [hcc, hc])]
        cases hnr' : nr.getCell c'' with
        | some w => exact getCell_setCell_other r c c'' (some w) hcc
        | none => rfl

theorem getCell_selectRow (nr : AttrRow) (cols : List String) (c : String)
    (h : c ∈ cols) :
    (AttrRow.mk nr.id (cols.map fun c => (c, nr.getCell c))).getCell c =
      nr.getCell c := by
  unfold AttrRow.getCell
  simp only
  induction cols with
  | nil => simp at h
  | cons c' rest ih =>
    by_cases hc : c = c'
    · subst hc
      rw [List.map_cons, lookup_head_eq]
      rfl
    · rw [List.map_cons, lookup_head_ne c c' _ _ hc]
      exact ih ((List.mem_cons.mp h).resolve_left hc)

theorem find?_map_rows {α β : Type} (f : α → β) (p : β → Bool) (l : List α) :
    (l.map f).find? p = (l.find? fun a => p (f a)).map f := by
  induction l with
  | nil => rfl
  | cons a rest ih =>
    cases hp : p (f a) with
    | true => simp [List.find?, hp]
    | false => simp [List.find?, hp, ih]

theorem setCell_id (r : AttrRow) (c : String) (v : Option ℚ) :
    (r.setCell c v).id = r.id := by
  unfold AttrRow.setCell
  split <;> rfl

theorem foldl_null_id (cols : List String) (r : AttrRow) :
    (cols.foldl (fun r c => r.setCell c none) r).id = r.id := by
  induction cols generalizing r with
  | nil => rfl
  | cons c' rest ih => rw [List.foldl_cons, ih, setCell_id]

theorem foldl_upd_id (nr : AttrRow) (cols : List String) (r : AttrRow) :
    (cols.foldl (fun r c => match nr.getCell c with
      | some v => r.setCell c (some v)
      | none => r) r).id = r.id := by
  induction cols generalizing r with
  | nil => rfl
  | cons c' rest ih =>
    rw [List.foldl_cons, ih]
    cases nr.getCell c' with
    | some v => rw [setCell_id]
    | none => rfl

/-- **C6 (amended).**  `update_attr_df` is a keyed update join that never
replaces the table wholesale: the output has exactly the stored table's
rows, in order, with the same ids; every column not listed in
`cols_to_update` keeps its previous value in every row; a row whose id
matches a row of the transformed dataframe takes that row's values in the
updated columns; but a row whose id does not appear in the transformed
dataframe has its updated columns reset to null (they are nulled before
the join and never restored), not left at their previous values. -/
theorem update_attr_df_is_keyed_update (old df : List AttrRow)
    (cols : List String) :
    ((update_attr_df old df cols).map (·.id) = old.map (·.id)) ∧
    (∀ i (hi : i < old.length) (hi' : i < (update_attr_df old df cols).length),
      (∀ c, c ∉ cols →
        ((update_attr_df old df cols).get ⟨i, hi'⟩).getCell c =
          (old.get ⟨i, hi⟩).getCell c) ∧
      (df.find? (fun s => s.id = (old.get ⟨i, hi⟩).id) = none →
        ∀ c ∈ cols, ((update_attr_df old df cols).get ⟨i, hi'⟩).getCell c = none) ∧
      (∀ nr, df.find? (fun s => s.id = (old.get ⟨i, hi⟩).id) = some nr →
        ∀ c ∈ cols,
          ((update_attr_df old df cols).get ⟨i, hi'⟩).getCell c = nr.getCell c)) := by
  have hrow : ∀ i (hi : i < old.length) (hi' : i < (update_attr_df old df cols).length),
      (update_attr_df old df cols).get ⟨i, hi'⟩ =
        (fun r =>
          let r₁ := cols.foldl (fun r c => r.setCell c none) r
          match (df.map fun s =>
              AttrRow.mk s.id (cols.map fun c => (c, s.getCell c))).find?
              (fun nr => nr.id = r₁.id) with
          | none => r₁
          | some nr =>
            cols.foldl (fun r c => match nr.getCell c with
              | some v => r.setCell c (some v)
              | none => r) r₁) (old.get ⟨i, hi⟩) := by
    intro i hi hi'
    unfold update_attr_df
    simp only [List.get_eq_getElem, List.getElem_map]
  constructor
  · unfold update_attr_df
    simp only [List.map_map]
    apply List.map_congr_left
    intro r _
    simp only [Function.comp_apply]
    split
    · exact foldl_null_id cols r
    · rw [foldl_upd_id _ cols _]
      exact foldl_null_id cols r
  · intro i hi hi'
    rw [hrow i hi hi']
    set r := old.get ⟨i, hi⟩ with hr
    simp only
    rw [find?_map_rows]
    have hpred : (fun s => decide (AttrRow.id
        (AttrRow.mk s.id (cols.map fun c => (c, s.getCell c))) =
        (cols.foldl (fun r c => r.setCell c none) r).id)) =
        (fun s : AttrRow => decide (s.id = r.id)) := by
      funext s
      simp only [foldl_null_id cols r]
    refine ⟨?_, ?_, ?_⟩
    · intro c hc
      cases hf : df.find? (fun s => s.id = r.id) with
      | none =>
        simp only [hpred, hf, Option.map_none']
        rw [getCell_foldl_null, if_neg hc]
      | some nr =>
        simp only [hpred, hf, Option.map_some']
        rw [getCell_foldl_upd, if_neg hc, getCell_foldl_null, if_neg hc]
    · intro hf c hc
      simp only [hpred, hf, Option.map_none']
      rw [getCell_foldl_null, if_pos hc]
    · intro nr hf c hc
      simp only [hpred, hf, Option.map_some']
      rw [getCell_foldl_upd, if_pos hc, getCell_selectRow nr cols c hc]
      cases hnr : nr.getCell c with
      | some v => rfl
      | none => rw [getCell_foldl_null, if_pos hc]

/-- **C3, counterexample.**  For key `k` observed as `[1.0, 1.2, 1.0]`
with `min_true_float_frequency = 0.9` and
`min_unique_numerical_observations` disabled: the key is integral (2/3 of
the values equal their own rounding, above `1 - 0.9`), it has two
distinct observed values — so by the claim's rules it is not DROPPED and
its final tag would be INTEGER — yet `_add_inferred_val_types` rounds the
integral key's values *before* the single-distinct-value test, sees only
the value `1`, and tags the key DROPPED. -/
theorem add_inferred_val_types_rounds_before_uniqueness :
    (add_inferred_val_types (some (9/10)) none [("k", none)]
        [("k", 1), ("k", 6/5), ("k", 1)]).lookup "k" =
      some NumericValueType.dropped ∧
    (keyVals [("k", 1), ("k", 6/5), ("k", 1)] "k").dedup.length = 2 ∧
    NumericValueType.dropped ≠ NumericValueType.integer := by
  decide

theorem lookup_of_mem_nodup {β : Type} (l : List (String × β)) (k : String)
    (v : β) (hmem : (k, v) ∈ l) (hnodup : (l.map Prod.fst).Nodup) :
    l.lookup k = some v := by
  induction l with
  | nil => simp at hmem
  | cons p rest ih =>
    rcases p with ⟨a, b⟩
    rw [List.map_cons, List.nodup_cons] at hnodup
    rcases List.mem_cons.mp hmem with hm | hm
    · obtain ⟨rfl, rfl⟩ := Prod.mk.injEq .. ▸ hm
      exact lookup_head_eq k v rest
    · have hka : ¬ k = a := by
        rintro rfl
        exact hnodup.1 (List.mem_map.mpr ⟨(k, v), hm, rfl⟩)
      rw [lookup_head_ne k a b rest hka]
      exact ih hm hnodup.2

theorem lookup_map_graph {β : Type} (l : List String) (g : String → β)
    (k : String) (h : k ∈ l) : (l.map fun x => (x, g x)).lookup k = some (g k) := by
  induction l with
  | nil => simp at h
  | cons a rest ih =>
    by_cases hk : k = a
    · subst hk
      rw [List.map_cons, lookup_head_eq]
    · rw [List.map_cons, lookup_head_ne k a (g a) _ hk]
      exact ih ((List.mem_cons.mp h).resolve_left hk)

theorem lookup_map_graph_none {β : Type} (l : List String) (g : String → β)
    (k : String) (h : k ∉ l) : (l.map fun x => (x, g x)).lookup k = none := by
  apply lookup_eq_none_of_not_mem
  intro hmem
  rcases List.mem_map.mp hmem with ⟨p, hp, hp1⟩
  rcases List.mem_map.mp hp with ⟨x, hx, rfl⟩
  exact h (hp1 ▸ hx)

theorem lookup_map_entry {β γ : Type} (l : List (String × β))
    (g : String → β → γ) (k : String) :
    (l.map fun kt => (kt.1, g kt.1 kt.2)).lookup k = (l.lookup k).map (g k) := by
  induction l with
  | nil => rfl
  | cons p rest ih =>
    rcases p with ⟨a, b⟩
    by_cases hk : k = a
    · subst hk
      rw [List.map_cons, lookup_head_eq, lookup_head_eq, Option.map_some']
    · rw [List.map_cons, lookup_head_ne k a (g a b) _ hk, lookup_head_ne k a b _ hk, ih]

theorem filter_key_map_keep (f : String × ℚ → String × ℚ)
    (hf : ∀ r, (f r).1 = r.1) (l : List (String × ℚ)) (k : String) :
    (l.map f).filter (fun r => decide (r.1 = k)) =
      (l.filter (fun r => decide (r.1 = k))).map f := by
  induction l with
  | nil => rfl
  | cons r rest ih =>
    by_cases hk : r.1 = k <;>
      simp [List.filter_cons, hf r, hk, ih]

theorem keyVals_filter_keypred (q : String → Bool) (l : List (String × ℚ))
    (k : String) :
    keyVals (l.filter fun r => q r.1) k =
      if q k = true then keyVals l k else [] := by
  unfold keyVals
  rw [List.filter_filter]
  by_cases hq : q k = true
  · rw [if_pos hq]
    congr 1
    apply List.filter_congr
    intro r _
    by_cases hk : r.1 = k
    · simp [hk, hq]
    · simp [hk]
  · rw [if_neg hq]
    rw [show (l.filter fun r => decide (r.1 = k) && q r.1) = [] from ?_]
    · rfl
    · rw [List.filter_eq_nil]
      intro r _
      by_cases hk : r.1 = k
      · simp [hk, hq]
      · simp [hk]

theorem keyVals_condround (ik : List (String × Bool)) (l : List (String × ℚ))
    (k : String) :
    keyVals (l.map fun r =>
        if ik.lookup r.1 = some true then (r.1, ((plRound r.2 : ℤ) : ℚ)) else r) k =
      if ik.lookup k = some true then
        (keyVals l k).map (fun v => ((plRound v : ℤ) : ℚ))
      else keyVals l k := by
  unfold keyVals
  rw [filter_key_map_keep _ (fun r => by split <;> rfl) l k, List.map_map]
  by_cases hg : ik.lookup k = some true
  · rw [if_pos hg, List.map_map]
    apply List.map_congr_left
    intro r hr
    have hk : r.1 = k := by simpa using (List.mem_filter.mp hr).2
    simp only [Function.comp_apply, hk, hg, if_pos]
  · rw [if_neg hg]
    apply List.map_congr_left
    intro r hr
    have hk : r.1 = k := by simpa using (List.mem_filter.mp hr).2
    simp [Function.comp_apply, hk, hg]

theorem keyVals_ne_nil_iff (l : List (String × ℚ)) (k : String) :
    keyVals l k ≠ [] ↔ k ∈ l.map Prod.fst := by
  unfold keyVals
  constructor
  · intro h
    rcases List.exists_mem_of_ne_nil _ h with ⟨v, hv⟩
    rcases List.mem_map.mp hv with ⟨r, hr, rfl⟩
    rcases List.mem_filter.mp hr with ⟨hrl, hrk⟩
    exact (by simpa using hrk : r.1 = k) ▸ List.mem_map_of_mem Prod.fst hrl
  · intro h hnil
    rcases List.mem_map.mp h with ⟨r, hr, rfl⟩
    have : r.2 ∈ (l.filter fun r' => decide (r'.1 = r.1)).map Prod.snd :=
      List.mem_map_of_mem Prod.snd (List.mem_filter.mpr ⟨hr, by simp⟩)
    rw [hnil] at this
    simp at this

theorem mem_sourceKeys_iff (l : List (String × ℚ)) (k : String) :
    k ∈ sourceKeys l ↔ k ∈ l.map Prod.fst := by
  unfold sourceKeys
  exact List.mem_dedup

theorem keyVals_cons (r : String × ℚ) (t : List (String × ℚ)) (k : String) :
    keyVals (r :: t) k = if r.1 = k then r.2 :: keyVals t k else keyVals t k := by
  unfold keyVals
  by_cases h : r.1 = k <;> simp [List.filter_cons, h]

theorem keyVals_filter_true (p : String × ℚ → Bool) (l : List (String × ℚ))
    (k : String) (hp : ∀ v, p (k, v) = true) :
    keyVals (l.filter p) k = keyVals l k := by
  induction l with
  | nil => rfl
  | cons r t ih =>
    rw [List.filter_cons]
    by_cases hk : r.1 = k
    · have hr : p r = true := by
        rw [show r = (k, r.2) by rw [← hk]]
        exact hp r.2
      rw [if_pos hr, keyVals_cons, keyVals_cons, if_pos hk, if_pos hk, ih]
    · cases hpr : p r
      · rw [if_neg (by simp)]
        rw [keyVals_cons, if_neg hk]
        exact ih
      · rw [if_pos rfl, keyVals_cons, keyVals_cons, if_neg hk, if_neg hk]
        exact ih

theorem keyVals_fvti_of_null (metadata : List (String × Option NumericValueType))
    (source : List (String × ℚ)) (k : String)
    (hk : (k, (none : Option NumericValueType)) ∈ metadata) :
    keyVals (forValTypeInference metadata source) k = keyVals source k := by
  unfold forValTypeInference
  apply keyVals_filter_true
  intro v
  have hk1 : k ∈ (metadata.filter (·.2 = none)).map Prod.fst :=
    List.mem_map.mpr ⟨(k, none), List.mem_filter.mpr ⟨hk, rfl⟩, rfl⟩
  simp [hk1]

theorem keyVals_fvti_of_tagged (metadata : List (String × Option NumericValueType))
    (source : List (String × ℚ)) (k : String) (t : NumericValueType)
    (hk : (k, some t) ∈ metadata) (hnodup : (metadata.map Prod.fst).Nodup) :
    keyVals (forValTypeInference metadata source) k = [] := by
  by_contra h
  have hmem := (keyVals_ne_nil_iff _ k).mp h
  unfold forValTypeInference at hmem
  rcases List.mem_map.mp hmem with ⟨r, hr, hrk⟩
  rcases List.mem_filter.mp hr with ⟨_, hpred⟩
  rw [hrk] at hpred
  have hkmem : k ∈ metadata.map Prod.fst := List.mem_map.mpr ⟨(k, some t), hk, rfl⟩
  simp only [Bool.or_eq_true, Bool.not_eq_true', decide_eq_true_eq,
    decide_eq_false_iff_not] at hpred
  rcases hpred with hp1 | hp2
  · exact hp1 hkmem
  · rcases List.mem_map.mp hp2 with ⟨q, hq, hqk⟩
    rcases List.mem_filter.mp hq with ⟨hqm, hqnull⟩
    have hq2 : q.2 = none := by simpa using hqnull
    have hq' : (k, (none : Option NumericValueType)) ∈ metadata := by
      have hqe : q = (k, none) := by
        rcases q with ⟨q1, q2⟩
        simp only at hqk hq2
        rw [hqk, hq2]
      rw [← hqe]
      exact hqm
    have h1 : metadata.lookup k = some (some t) := lookup_of_mem_nodup _ _ _ hk hnodup
    have h2 : metadata.lookup k = some none := lookup_of_mem_nodup _ _ _ hq' hnodup
    rw [h1] at h2
    simp at h2

theorem keyVals_aivt_fvti2 (ik : List (String × Bool)) (l : List (String × ℚ))
    (k : String) :
    keyVals (aivt_fvti2 ik l) k =
      if ik.lookup k = some true then
        (keyVals l k).map (fun v => ((plRound v : ℤ) : ℚ))
      else keyVals l k := by
  unfold aivt_fvti2
  exact keyVals_condround ik l k

theorem mem_aivt_dropped_keys (fvti2 : List (String × ℚ)) (k : String) :
    k ∈ aivt_dropped_keys fvti2 ↔
      keyVals fvti2 k ≠ [] ∧ (keyVals fvti2 k).dedup.length = 1 := by
  unfold aivt_dropped_keys
  rw [List.mem_filter]
  constructor
  · rintro ⟨hmem, hcond⟩
    exact ⟨(keyVals_ne_nil_iff _ _).mpr ((mem_sourceKeys_iff _ _).mp hmem),
      by simpa using hcond⟩
  · rintro ⟨hne, hlen⟩
    exact ⟨(mem_sourceKeys_iff _ _).mpr ((keyVals_ne_nil_iff _ _).mp hne),
      by simpa using hlen⟩

theorem keyVals_aivt_fvti3_of_not_dropped (dk : List String)
    (fvti2 : List (String × ℚ)) (k : String) (h : k ∉ dk) :
    keyVals (aivt_fvti3 dk fvti2) k = keyVals fvti2 k := by
  unfold aivt_fvti3
  apply keyVals_filter_true
  intro v
  simp [h]

theorem lookup_aivt_metadata3 (dk : List String)
    (md2 : List (String × Option NumericValueType)) (k : String) :
    (aivt_metadata3 dk md2).lookup k =
      (md2.lookup k).map
        (fun t => if k ∈ dk then some NumericValueType.dropped else t) := by
  unfold aivt_metadata3
  have hfun : (fun kt : String × Option NumericValueType =>
      if kt.1 ∈ dk then (kt.1, some NumericValueType.dropped) else kt) =
      (fun kt => (kt.1, if kt.1 ∈ dk then some NumericValueType.dropped else kt.2)) := by
    funext kt
    by_cases h : kt.1 ∈ dk <;> simp [h]
  rw [hfun]
  exact lookup_map_entry md2
    (fun c t => if c ∈ dk then some NumericValueType.dropped else t) k

theorem lookup_outerExtendKeys_of_some
    (md : List (String × Option NumericValueType)) (ks : List String) (k : String)
    (v : Option NumericValueType) (h : md.lookup k = some v) :
    (outerExtendKeys md ks).lookup k = some v := by
  unfold outerExtendKeys
  rw [lookup_append_cases, h]

theorem lookup_aivt_metadata2_of_some (mtff : Option ℚ)
    (metadata : List (String × Option NumericValueType))
    (ik : List (String × Bool)) (k : String) (v : Option NumericValueType)
    (h : metadata.lookup k = some v) :
    (aivt_metadata2 mtff metadata ik).lookup k = some v := by
  unfold aivt_metadata2
  cases mtff with
  | none => exact h
  | some f => exact lookup_outerExtendKeys_of_some _ _ _ _ h

theorem lookup_aivt_metadata4_of_some (muno : Option CountOrProportion)
    (md3 : List (String × Option NumericValueType))
    (ck : List (String × Bool)) (k : String) (v : Option NumericValueType)
    (h : md3.lookup k = some v) :
    (aivt_metadata4 muno md3 ck).lookup k = some v := by
  unfold aivt_metadata4
  cases muno with
  | none => exact h
  | some c => exact lookup_outerExtendKeys_of_some _ _ _ _ h

theorem aivt_result_lookup (mtff : Option ℚ) (muno : Option CountOrProportion)
    (metadata : List (String × Option NumericValueType)) (source : List (String × ℚ))
    (fvti : List (String × ℚ)) (intKeys : List (String × Bool))
    (fvti2 : List (String × ℚ)) (dk : List String)
    (md3 : List (String × Option NumericValueType)) (catKeys : List (String × Bool))
    (hf : fvti = forValTypeInference metadata source)
    (hik : intKeys = aivt_int_keys mtff fvti)
    (h2 : fvti2 = aivt_fvti2 intKeys fvti)
    (hdk : dk = aivt_dropped_keys fvti2)
    (hm3 : md3 = aivt_metadata3 dk (aivt_metadata2 mtff metadata intKeys))
    (hck : catKeys = aivt_cat_keys muno (aivt_fvti3 dk fvti2))
    (k : String) :
    (add_inferred_val_types mtff muno metadata source).lookup k =
      ((aivt_metadata4 muno md3 catKeys).lookup k).map
        (fun t => t.getD (inferredValueType (aivt_is_int_of mtff intKeys k)
          (aivt_is_cat_of muno catKeys k))) := by
  subst hf hik h2 hdk hm3 hck
  exact lookup_map_entry _ (fun (c : String) (t : Option NumericValueType) =>
    t.getD (inferredValueType
    (aivt_is_int_of mtff (aivt_int_keys mtff (forValTypeInference metadata source)) c)
    (aivt_is_cat_of muno (aivt_cat_keys muno (aivt_fvti3
      (aivt_dropped_keys (aivt_fvti2
        (aivt_int_keys mtff (forValTypeInference metadata source))
        (forValTypeInference metadata source)))
      (aivt_fvti2 (aivt_int_keys mtff (forValTypeInference metadata source))
        (forValTypeInference metadata source)))) c))) k

theorem aivt_char_tagged (mtff : Option ℚ) (muno : Option CountOrProportion)
    (metadata : List (String × Option NumericValueType)) (source : List (String × ℚ))
    (k : String) (t : NumericValueType)
    (hnodup : (metadata.map Prod.fst).Nodup) (hkt : (k, some t) ∈ metadata) :
    (add_inferred_val_types mtff muno metadata source).lookup k = some t := by
  obtain ⟨fvti, hf⟩ : ∃ x, x = forValTypeInference metadata source := ⟨_, rfl⟩
  obtain ⟨ik, hik⟩ : ∃ x, x = aivt_int_keys mtff fvti := ⟨_, rfl⟩
  obtain ⟨f2, h2⟩ : ∃ x, x = aivt_fvti2 ik fvti := ⟨_, rfl⟩
  obtain ⟨dk, hdk⟩ : ∃ x, x = aivt_dropped_keys f2 := ⟨_, rfl⟩
  obtain ⟨m3, hm3⟩ : ∃ x, x = aivt_metadata3 dk (aivt_metadata2 mtff metadata ik) :=
    ⟨_, rfl⟩
  obtain ⟨ck, hck⟩ : ∃ x, x = aivt_cat_keys muno (aivt_fvti3 dk f2) := ⟨_, rfl⟩
  rw [aivt_result_lookup mtff muno metadata source fvti ik f2 dk m3 ck
    hf hik h2 hdk hm3 hck k]
  have hfvnil : keyVals fvti k = [] := by
    rw [hf]
    exact keyVals_fvti_of_tagged _ _ _ _ hkt hnodup
  have hfv2nil : keyVals f2 k = [] := by
    rw [h2, keyVals_aivt_fvti2, hfvnil]
    split <;> simp
  have hdkk : k ∉ dk := by
    rw [hdk]
    intro hm
    exact ((mem_aivt_dropped_keys _ _).mp hm).1 hfv2nil
  have hmd : metadata.lookup k = some (some t) :=
    lookup_of_mem_nodup _ _ _ hkt hnodup
  have hm2k : (aivt_metadata2 mtff metadata ik).lookup k = some (some t) :=
    lookup_aivt_metadata2_of_some _ _ _ _ _ hmd
  have hm3k : m3.lookup k = some (some t) := by
    rw [hm3, lookup_aivt_metadata3, hm2k]
    simp [hdkk]
  have hm4k : (aivt_metadata4 muno m3 ck).lookup k = some (some t) :=
    lookup_aivt_metadata4_of_some _ _ _ _ _ hm3k
  rw [hm4k]
  rfl

theorem aivt_char_null (mtff : Option ℚ) (muno : Option CountOrProportion)
    (metadata : List (String × Option NumericValueType)) (source : List (String × ℚ))
    (k : String) (isInt isCat : Bool) (obs' : List ℚ)
    (hnodup : (metadata.map Prod.fst).Nodup)
    (hkm : (k, (none : Option NumericValueType)) ∈ metadata)
    (hne : keyVals source k ≠ [])
    (hisInt : isInt = (match mtff with
      | none => false
      | some f => isIntAgg f (keyVals source k)))
    (hobs : obs' = (if isInt = true then
        (keyVals source k).map (fun v => ((plRound v : ℤ) : ℚ))
      else keyVals source k))
    (hisCat : isCat = (match muno with
      | none => false
      | some c => isCatAgg c obs')) :
    (add_inferred_val_types mtff muno metadata source).lookup k =
      some (if obs'.dedup.length = 1 then NumericValueType.dropped
        else if isInt = true ∧ isCat = true then NumericValueType.categoricalInteger
        else if isCat = true then NumericValueType.categoricalFloat
        else if isInt = true then NumericValueType.integer
        else NumericValueType.float) := by
  obtain ⟨fvti, hf⟩ : ∃ x, x = forValTypeInference metadata source := ⟨_, rfl⟩
  obtain ⟨ik, hik⟩ : ∃ x, x = aivt_int_keys mtff fvti := ⟨_, rfl⟩
  obtain ⟨f2, h2⟩ : ∃ x, x = aivt_fvti2 ik fvti := ⟨_, rfl⟩
  obtain ⟨dk, hdk⟩ : ∃ x, x = aivt_dropped_keys f2 := ⟨_, rfl⟩
  obtain ⟨m3, hm3⟩ : ∃ x, x = aivt_metadata3 dk (aivt_metadata2 mtff metadata ik) :=
    ⟨_, rfl⟩
  obtain ⟨ck, hck⟩ : ∃ x, x = aivt_cat_keys muno (aivt_fvti3 dk f2) := ⟨_, rfl⟩
  rw [aivt_result_lookup mtff muno metadata source fvti ik f2 dk m3 ck
    hf hik h2 hdk hm3 hck k]
  have hfv : keyVals fvti k = keyVals source k := by
    rw [hf]
    exact keyVals_fvti_of_null _ _ _ hkm
  have hksrc : k ∈ sourceKeys fvti :=
    (mem_sourceKeys_iff _ _).mpr ((keyVals_ne_nil_iff _ _).mp
      (by rw [hfv]; exact hne))
  have hcond : ik.lookup k = some true ↔ isInt = true := by
    cases mtff with
    | none =>
      rw [hik, hisInt]
      unfold aivt_int_keys
      simp [List.lookup]
    | some f =>
      rw [hik, hisInt]
      unfold aivt_int_keys
      rw [lookup_map_graph _ _ _ hksrc, hfv]
      simp
  have hfv2 : keyVals f2 k = obs' := by
    rw [h2, keyVals_aivt_fvti2, hfv, hobs]
    by_cases hii : isInt = true
    · rw [if_pos (hcond.mpr hii), if_pos hii]
    · rw [if_neg (fun hcc => hii (hcond.mp hcc)), if_neg hii]
  have hobs_ne : obs' ≠ [] := by
    rw [hobs]
    by_cases hii : isInt = true
    · rw [if_pos hii]
      simpa using hne
    · rw [if_neg hii]
      exact hne
  have hdkmem : k ∈ dk ↔ obs'.dedup.length = 1 := by
    rw [hdk, mem_aivt_dropped_keys, hfv2]
    constructor
    · exact And.right
    · exact fun h => ⟨hobs_ne, h⟩
  have hmd : metadata.lookup k = some none := lookup_of_mem_nodup _ _ _ hkm hnodup
  have hm2k : (aivt_metadata2 mtff metadata ik).lookup k = some none :=
    lookup_aivt_metadata2_of_some _ _ _ _ _ hmd
  have hm3k : m3.lookup k =
      some (if k ∈ dk then some NumericValueType.dropped else none) := by
    rw [hm3, lookup_aivt_metadata3, hm2k]
    rfl
  have hm4k : (aivt_metadata4 muno m3 ck).lookup k =
      some (if k ∈ dk then some NumericValueType.dropped else none) :=
    lookup_aivt_metadata4_of_some _ _ _ _ _ hm3k
  rw [hm4k]
  by_cases hdrop : obs'.dedup.length = 1
  · rw [if_pos (hdkmem.mpr hdrop), if_pos hdrop]
    rfl
  · have hkdk : k ∉ dk := fun hm => hdrop (hdkmem.mp hm)
    rw [if_neg hkdk, if_neg hdrop]
    have hA : aivt_is_int_of mtff ik k = some isInt := by
      cases mtff with
      | none =>
        subst hisInt
        rfl
      | some f =>
        rw [hisInt]
        unfold aivt_is_int_of
        rw [hik]
        unfold aivt_int_keys
        rw [lookup_map_graph _ _ _ hksrc, hfv]
    have hB : aivt_is_cat_of muno ck k = some isCat := by
      cases muno with
      | none =>
        subst hisCat
        rfl
      | some c =>
        have hf3 : keyVals (aivt_fvti3 dk f2) k = obs' := by
          rw [keyVals_aivt_fvti3_of_not_dropped dk f2 k hkdk, hfv2]
        have hk3 : k ∈ sourceKeys (aivt_fvti3 dk f2) :=
          (mem_sourceKeys_iff _ _).mpr ((keyVals_ne_nil_iff _ _).mp
            (by rw [hf3]; exact hobs_ne))
        rw [hisCat, hck]
        unfold aivt_is_cat_of aivt_cat_keys
        rw [lookup_map_graph _ _ _ hk3, hf3]
    rw [hA, hB]
    cases isInt <;> cases isCat <;> rfl

/-- **C3.** Inference of the numeric `value_type` tags
(`_add_inferred_val_types`, polars file lines 425-518). Corrected
characterization: a key whose tag is already non-null keeps its prior tag;
a null-tagged key `k` observed in the source gets its tag from its observed
values `keyVals source k` as follows. `isInt` is the integral test (the
fraction of values equal to their own round exceeds
`1 - min_true_float_frequency`; always `false` when that switch is off);
`obs'` is the observed values with every value rounded when `isInt` (the
code rounds BEFORE the uniqueness and categorical tests, which the claim
does not say); if `obs'` has exactly one distinct value the tag is DROPPED;
otherwise `isCat` is the categorical test (`lt_count_or_proportion` of the
post-rounding distinct-value count against the observation count; always
`false` when `min_unique_numerical_observations` is off), and the tag is
CATEGORICAL_INTEGER when `isInt ∧ isCat`, CATEGORICAL_FLOAT when `isCat`
only, INTEGER when `isInt` only, else FLOAT. -/
theorem add_inferred_val_types_characterization (mtff : Option ℚ)
    (muno : Option CountOrProportion)
    (metadata : List (String × Option NumericValueType))
    (source : List (String × ℚ)) (k : String)
    (hnodup : (metadata.map Prod.fst).Nodup) :
    (∀ t : NumericValueType, (k, some t) ∈ metadata →
      (add_inferred_val_types mtff muno metadata source).lookup k = some t) ∧
    (∀ (isInt isCat : Bool) (obs' : List ℚ),
      (k, (none : Option NumericValueType)) ∈ metadata →
      keyVals source k ≠ [] →
      isInt = (match mtff with
        | none => false
        | some f => isIntAgg f (keyVals source k)) →
      obs' = (if isInt = true then
          (keyVals source k).map (fun v => ((plRound v : ℤ) : ℚ))
        else keyVals source k) →
      isCat = (match muno with
        | none => false
        | some c => isCatAgg c obs') →
      (add_inferred_val_types mtff muno metadata source).lookup k =
        some (if obs'.dedup.length = 1 then NumericValueType.dropped
          else if isInt = true ∧ isCat = true then NumericValueType.categoricalInteger
          else if isCat = true then NumericValueType.categoricalFloat
          else if isInt = true then NumericValueType.integer
          else NumericValueType.float)) := by
  constructor
  · intro t hkt
    exact aivt_char_tagged mtff muno metadata source k t hnodup hkt
  · intro isInt isCat obs' hkm hne hisInt hobs hisCat
    exact aivt_char_null mtff muno metadata source k isInt isCat obs'
      hnodup hkm hne hisInt hobs hisCat

theorem offsets_go_keys (vocabs : String → Option (List String))
    (ms : List String) (c : ℕ) :
    (unified_vocabulary_offsets_go vocabs ms c).map Prod.fst = ms := by
  induction ms generalizing c with
  | nil => rfl
  | cons m t ih => simp [unified_vocabulary_offsets_go, ih]

theorem offsets_go_lower (vocabs : String → Option (List String))
    (ms : List String) (c : ℕ) :
    ∀ mo ∈ unified_vocabulary_offsets_go vocabs ms c, c ≤ mo.2 := by
  induction ms generalizing c with
  | nil =>
    intro mo h
    simp [unified_vocabulary_offsets_go] at h
  | cons m t ih =>
    intro mo h
    simp only [unified_vocabulary_offsets_go] at h
    rcases List.mem_cons.mp h with rfl | h'
    · exact Nat.le_refl c
    · exact Nat.le_trans (Nat.le_add_right c _) (ih _ mo h')

theorem offsets_go_chain (vocabs : String → Option (List String))
    (ms : List String) (c : ℕ) :
    (unified_vocabulary_offsets_go vocabs ms c).Chain'
      (fun a b => b.2 = a.2 + vocabBlockSize vocabs a.1) := by
  induction ms generalizing c with
  | nil => simp [unified_vocabulary_offsets_go]
  | cons m t ih =>
    simp only [unified_vocabulary_offsets_go]
    rw [List.chain'_cons']
    refine ⟨?_, ih _⟩
    intro y hy
    cases t with
    | nil => simp [unified_vocabulary_offsets_go] at hy
    | cons n t' =>
      simp only [unified_vocabulary_offsets_go, List.head?_cons,
        Option.mem_def, Option.some.injEq] at hy
      rw [← hy]
      rfl

theorem offsets_go_pairwise (vocabs : String → Option (List String))
    (ms : List String) (c : ℕ) :
    (unified_vocabulary_offsets_go vocabs ms c).Pairwise
      (fun a b => a.2 + vocabBlockSize vocabs a.1 ≤ b.2) := by
  induction ms generalizing c with
  | nil => simp [unified_vocabulary_offsets_go]
  | cons m t ih =>
    simp only [unified_vocabulary_offsets_go]
    rw [List.pairwise_cons]
    refine ⟨?_, ih _⟩
    intro b hb
    exact offsets_go_lower vocabs t _ b hb

theorem mem_vocab_idxmap_snd_lt (vs : List String) (vi : String × ℕ)
    (h : vi ∈ vocab_idxmap vs) : vi.2 < vs.length := by
  unfold vocab_idxmap at h
  rcases List.mem_map.mp h with ⟨p, hp, rfl⟩
  have hmem : p.1 ∈ List.range vs.length := by
    rw [← List.enum_map_fst vs]
    exact List.mem_map_of_mem Prod.fst hp
  simpa using List.mem_range.mp hmem

theorem vocab_idxmap_shift_snd (vs : List String) (o : ℕ) :
    ((vocab_idxmap vs).map fun vi => (vi.1, vi.2 + o)).map Prod.snd =
      (List.range vs.length).map (fun j => j + o) := by
  unfold vocab_idxmap
  rw [List.map_map, List.map_map, ← List.enum_map_fst vs, List.map_map]
  rfl

/-- **C5.** The unified vocabulary index space (base file, lines 729-754),
confirmed: the offsets table lists `event_type` first and then the
measurement keys in ascending sorted order; its head is `(event_type, 1)`
(the event-type block starts at 1); consecutive offsets advance by exactly
the previous key's block size (its vocabulary length, or one slot when it
has no vocabulary), so each key receives the next contiguous block; each
key's idxmap entry assigns exactly the indices `offset, …,
offset+size-1` (a key with no vocabulary gets the singleton mapped from
its own key name), and every offset is at least 1; index 0 is never
assigned to any (measurement, symbol) pair; and the index sets of distinct
entries of the idxmap are pairwise disjoint. -/
theorem unified_vocabulary_idxmap_blocks (event_types : List String)
    (configs : List (String × Option (List String))) :
    (unified_vocabulary_offsets event_types configs).map Prod.fst =
        "event_type" :: (configs.map Prod.fst).mergeSort (· ≤ ·) ∧
    (unified_vocabulary_offsets event_types configs).head? =
        some ("event_type", 1) ∧
    (unified_vocabulary_offsets event_types configs).Chain'
      (fun a b => b.2 = a.2 +
        vocabBlockSize (measurement_vocabs_lookup event_types configs) a.1) ∧
    (∀ mo ∈ unified_vocabulary_offsets event_types configs,
      1 ≤ mo.2 ∧
      (mo.1,
        match measurement_vocabs_lookup event_types configs mo.1 with
        | some vs => (vocab_idxmap vs).map
            fun vi : String × ℕ => (vi.1, vi.2 + mo.2)
        | none => [(mo.1, mo.2)]) ∈
          unified_vocabulary_idxmap event_types configs ∧
      (match measurement_vocabs_lookup event_types configs mo.1 with
        | some vs => (vocab_idxmap vs).map
            fun vi : String × ℕ => (vi.1, vi.2 + mo.2)
        | none => [(mo.1, mo.2)]).map Prod.snd =
        (List.range
          (vocabBlockSize (measurement_vocabs_lookup event_types configs) mo.1)).map
          (fun j => j + mo.2)) ∧
    (∀ p ∈ unified_vocabulary_idxmap event_types configs,
      ∀ si ∈ p.2, 1 ≤ si.2) ∧
    (unified_vocabulary_idxmap event_types configs).Pairwise
      (fun p q => ∀ a ∈ p.2, ∀ b ∈ q.2, a.2 ≠ b.2) := by
  refine ⟨offsets_go_keys _ _ _, rfl, offsets_go_chain _ _ _, ?_, ?_, ?_⟩
  · intro mo hmo
    refine ⟨offsets_go_lower _ _ 1 mo hmo, ?_, ?_⟩
    · have hFm := List.mem_map_of_mem (fun mo : String × ℕ =>
        match measurement_vocabs_lookup event_types configs mo.1 with
        | some vs => (mo.1, (vocab_idxmap vs).map
            fun vi : String × ℕ => (vi.1, vi.2 + mo.2))
        | none => (mo.1, [(mo.1, mo.2)])) hmo
      unfold unified_vocabulary_idxmap
      rcases h : measurement_vocabs_lookup event_types configs mo.1 with _ | vs
      · simp only [h] at hFm ⊢
        exact hFm
      · simp only [h] at hFm ⊢
        exact hFm
    · rcases h : measurement_vocabs_lookup event_types configs mo.1 with _ | vs
      · simp [h, vocabBlockSize, List.range_succ]
      · simp only [h, vocabBlockSize]
        exact vocab_idxmap_shift_snd vs mo.2
  · intro p hp si hsi
    unfold unified_vocabulary_idxmap at hp
    rcases List.mem_map.mp hp with ⟨mo, hmo, rfl⟩
    have h1 : 1 ≤ mo.2 := offsets_go_lower _ _ 1 mo hmo
    rcases h : measurement_vocabs_lookup event_types configs mo.1 with _ | vs
    · simp only [h, List.mem_singleton] at hsi
      rw [hsi]
      exact h1
    · simp only [h] at hsi
      rcases List.mem_map.mp hsi with ⟨vi, hvi, rfl⟩
      show 1 ≤ vi.2 + mo.2
      omega
  · unfold unified_vocabulary_idxmap
    refine List.Pairwise.map _ ?_ (offsets_go_pairwise
      (measurement_vocabs_lookup event_types configs) _ 1)
    intro a b hab x hx y hy
    have hx' : x.2 < a.2 +
        vocabBlockSize (measurement_vocabs_lookup event_types configs) a.1 := by
      rcases h : measurement_vocabs_lookup event_types configs a.1 with _ | vs
      · simp only [h, List.mem_singleton] at hx
        rw [hx]
        show a.2 < a.2 +
          vocabBlockSize (measurement_vocabs_lookup event_types configs) a.1
        simp only [vocabBlockSize, h]
        omega
      · simp only [h] at hx
        rcases List.mem_map.mp hx with ⟨vi, hvi, rfl⟩
        have hlt := mem_vocab_idxmap_snd_lt vs vi hvi
        show vi.2 + a.2 < a.2 +
          vocabBlockSize (measurement_vocabs_lookup event_types configs) a.1
        simp only [vocabBlockSize, h]
        omega
    have hy' : b.2 ≤ y.2 := by
      rcases h : measurement_vocabs_lookup event_types configs b.1 with _ | vs
      · simp only [h, List.mem_singleton] at hy
        rw [hy]
      · simp only [h] at hy
        rcases List.mem_map.mp hy with ⟨vi, hvi, rfl⟩
        show b.2 ≤ vi.2 + b.2
        omega
    omega

/-- Witness for C3: on metadata `[("a", FLOAT), ("k", null)]` and source
values `k ↦ [2, 3]` with `min_true_float_frequency` off and
`min_unique_numerical_observations = count 3`, the characterization gives
`k ↦ CATEGORICAL_FLOAT` (2 distinct values < 3) and preserves
`a ↦ FLOAT`. -/
theorem add_inferred_val_types_characterization_witness :
    (([("a", some NumericValueType.float),
        ("k", (none : Option NumericValueType))].map Prod.fst).Nodup) ∧
    (add_inferred_val_types none (some (CountOrProportion.count 3))
        [("a", some NumericValueType.float), ("k", none)]
        [("k", 2), ("k", 3)]).lookup "k" = some NumericValueType.categoricalFloat ∧
    (add_inferred_val_types none (some (CountOrProportion.count 3))
        [("a", some NumericValueType.float), ("k", none)]
        [("k", 2), ("k", 3)]).lookup "a" = some NumericValueType.float := by
  refine ⟨by decide, ?_, ?_⟩
  · have h := (add_inferred_val_types_characterization none
      (some (CountOrProportion.count 3))
      [("a", some NumericValueType.float), ("k", none)]
      [("k", 2), ("k", 3)] "k" (by decide)).2 false true [2, 3]
      (by decide) (by decide) (by decide) (by decide) (by decide)
    exact h.trans (by decide)
  · exact (add_inferred_val_types_characterization none
      (some (CountOrProportion.count 3))
      [("a", some NumericValueType.float), ("k", none)]
      [("k", 2), ("k", 3)] "a" (by decide)).1 NumericValueType.float (by decide)

theorem scanl_tail_eq_cumsumFrom (l : List ℤ) :
    ∀ s : ℤ, (List.scanl (· + ·) s l).tail = cumsumFrom s l := by
  induction l with
  | nil => intro s; rfl
  | cons a t ih =>
    intro s
    show (s :: List.scanl (· + ·) (s + a) t).tail = cumsumFrom s (a :: t)
    rw [List.tail_cons,
      show cumsumFrom s (a :: t) = (s + a) :: cumsumFrom (s + a) t from rfl,
      ← ih (s + a)]
    cases t with
    | nil => rfl
    | cons b t' => rfl

theorem cumsum_eq_cumsumFrom (l : List ℤ) : cumsum l = cumsumFrom 0 l := by
  unfold cumsum
  exact scanl_tail_eq_cumsumFrom l 0

theorem cumsumFrom_length (l : List ℤ) :
    ∀ s : ℤ, (cumsumFrom s l).length = l.length := by
  induction l with
  | nil => intro s; rfl
  | cons a t ih => intro s; simp [cumsumFrom, ih]

theorem cumsumFrom_getLast (l : List ℤ) (hne : l ≠ []) :
    ∀ s : ℤ, (cumsumFrom s l).getLast? = some (s + l.sum) := by
  induction l with
  | nil => exact absurd rfl hne
  | cons a t ih =>
    intro s
    cases t with
    | nil => simp [cumsumFrom]
    | cons b t' =>
      rw [show cumsumFrom s (a :: b :: t') =
        (s + a) :: cumsumFrom (s + a) (b :: t') from rfl]
      have hcons : cumsumFrom (s + a) (b :: t') =
          (s + a + b) :: cumsumFrom (s + a + b) t' := rfl
      rw [hcons, List.getLast?_cons_cons, ← hcons, ih (by simp) (s + a)]
      simp only [List.sum_cons, Option.some.injEq]
      ring

theorem cumsumFrom_chain (l : List ℤ) (hpos : ∀ x ∈ l.dropLast, 0 ≤ x) :
    ∀ s : ℤ, (s :: (cumsumFrom s l).dropLast).Chain' (· ≤ ·) := by
  induction l with
  | nil => intro s; simp [cumsumFrom]
  | cons a t ih =>
    intro s
    cases t with
    | nil => simp [cumsumFrom]
    | cons b t' =>
      have h0 : 0 ≤ a := hpos a (by simp [List.dropLast_cons₂])
      have ih' := ih (fun x hx => hpos x
        (by rw [List.dropLast_cons₂]; exact List.mem_cons_of_mem _ hx)) (s + a)
      rw [show cumsumFrom s (a :: b :: t') =
        (s + a) :: ((s + a + b) :: cumsumFrom (s + a + b) t') from rfl]
      rw [List.dropLast_cons₂, List.chain'_cons]
      exact ⟨by omega, ih'⟩

theorem np_split_go_length {α : Type} (xs : List α) (bs : List ℤ) :
    ∀ prev : ℤ, (np_split_go xs prev bs).length = bs.length := by
  induction bs with
  | nil => intro prev; rfl
  | cons b t ih => intro prev; simp [np_split_go, ih]

theorem mem_pySlice_mem {α : Type} (a b : ℤ) (xs : List α) (x : α)
    (h : x ∈ pySlice a b xs) : x ∈ xs := by
  unfold pySlice at h
  exact List.mem_of_mem_take (List.mem_of_mem_drop h)

theorem mem_pySlice_take {α : Type} (a b : ℤ) (xs : List α) (x : α)
    (h : x ∈ pySlice a b xs) : x ∈ xs.take b.toNat := by
  unfold pySlice at h
  exact List.mem_of_mem_drop h

theorem mem_pySlice_drop {α : Type} (a b : ℤ) (xs : List α) (x : α)
    (h : x ∈ pySlice a b xs) : x ∈ xs.drop a.toNat := by
  unfold pySlice at h
  rw [List.drop_take] at h
  exact List.mem_of_mem_take h

theorem np_split_go_mem {α : Type} (xs : List α) (bs : List ℤ) :
    ∀ prev : ℤ, ∀ A ∈ np_split_go xs prev bs, ∀ x ∈ A, x ∈ xs := by
  induction bs with
  | nil =>
    intro prev A hA
    simp [np_split_go] at hA
  | cons b t ih =>
    intro prev A hA x hx
    simp only [np_split_go] at hA
    rcases List.mem_cons.mp hA with rfl | hA'
    · exact mem_pySlice_mem _ _ _ _ hx
    · exact ih b A hA' x hx

theorem np_split_go_mem_drop {α : Type} (xs : List α) (bs : List ℤ) :
    ∀ prev : ℤ, 0 ≤ prev → (prev :: bs.dropLast).Chain' (· ≤ ·) →
      ∀ A ∈ np_split_go xs prev bs, ∀ x ∈ A, x ∈ xs.drop prev.toNat := by
  induction bs with
  | nil =>
    intro prev _ _ A hA
    simp [np_split_go] at hA
  | cons b t ih =>
    intro prev h0 hch A hA x hx
    simp only [np_split_go] at hA
    rcases List.mem_cons.mp hA with rfl | hA'
    · exact mem_pySlice_drop _ _ _ _ hx
    · cases t with
      | nil => simp [np_split_go] at hA'
      | cons c t' =>
        rw [List.dropLast_cons₂] at hch
        obtain ⟨hpb, hch'⟩ := List.chain'_cons.mp hch
        have hb0 : 0 ≤ b := le_trans h0 hpb
        have hmem := ih b hb0 hch' A hA' x hx
        rw [show b.toNat = prev.toNat + (b.toNat - prev.toNat) by omega] at hmem
        rw [← List.drop_drop] at hmem
        exact List.mem_of_mem_drop hmem

theorem take_drop_disjoint {α : Type} (xs : List α) (hnd : xs.Nodup) (k : ℕ) :
    ∀ x ∈ xs.take k, x ∉ xs.drop k := by
  intro x hx hd
  rw [← List.take_append_drop k xs] at hnd
  rcases List.nodup_append.mp hnd with ⟨_, _, hdisj⟩
  exact hdisj hx hd

theorem np_split_go_pairwise {α : Type} (xs : List α) (hnd : xs.Nodup)
    (bs : List ℤ) :
    ∀ prev : ℤ, 0 ≤ prev → (prev :: bs.dropLast).Chain' (· ≤ ·) →
      (np_split_go xs prev bs).Pairwise (fun A B => ∀ x ∈ A, x ∉ B) := by
  induction bs with
  | nil =>
    intro prev _ _
    simp [np_split_go]
  | cons b t ih =>
    intro prev h0 hch
    cases t with
    | nil => simp [np_split_go]
    | cons c t' =>
      rw [List.dropLast_cons₂] at hch
      obtain ⟨hpb, hch'⟩ := List.chain'_cons.mp hch
      have hb0 : 0 ≤ b := le_trans h0 hpb
      simp only [np_split_go]
      rw [List.pairwise_cons]
      refine ⟨?_, ih b hb0 hch'⟩
      intro B hB x hx hxB
      exact take_drop_disjoint xs hnd b.toNat x (mem_pySlice_take _ _ _ _ hx)
        (np_split_go_mem_drop xs (c :: t') b hb0 hch' B hB x hxB)

theorem np_split_go_cover {α : Type} (xs : List α) (bs : List ℤ) :
    ∀ prev : ℤ, 0 ≤ prev → (prev :: bs.dropLast).Chain' (· ≤ ·) →
      bs.getLast? = some (xs.length : ℤ) →
      ∀ x ∈ xs.drop prev.toNat, ∃ A ∈ np_split_go xs prev bs, x ∈ A := by
  induction bs with
  | nil =>
    intro prev _ _ hlast
    simp at hlast
  | cons b t ih =>
    intro prev h0 hch hlast x hx
    cases t with
    | nil =>
      have hb : b = (xs.length : ℤ) := by simpa using hlast
      refine ⟨pySlice prev b xs, by simp [np_split_go], ?_⟩
      unfold pySlice
      rw [hb, Int.toNat_natCast, List.take_length]
      exact hx
    | cons c t' =>
      rw [List.dropLast_cons₂] at hch
      obtain ⟨hpb, hch'⟩ := List.chain'_cons.mp hch
      have hb0 : 0 ≤ b := le_trans h0 hpb
      have hlast' : (c :: t').getLast? = some (xs.length : ℤ) := by
        rw [List.getLast?_cons_cons] at hlast
        exact hlast
      have hplen : prev.toNat < xs.length := by
        by_contra hge
        push_neg at hge
        rw [List.drop_eq_nil_of_le hge] at hx
        simp at hx
      have hsplit : xs.drop prev.toNat =
          (xs.take b.toNat).drop prev.toNat ++ xs.drop b.toNat := by
        conv_lhs => rw [← List.take_append_drop b.toNat xs]
        rw [List.drop_append_eq_append_drop]
        have hple : prev.toNat - (xs.take b.toNat).length = 0 := by
          rw [List.length_take]
          omega
        rw [hple, List.drop_zero]
      rw [hsplit] at hx
      rcases List.mem_append.mp hx with hxl | hxr
      · exact ⟨pySlice prev b xs, by simp [np_split_go], hxl⟩
      · obtain ⟨A, hA, hxA⟩ := ih b hb0 hch' hlast' x hxr
        refine ⟨A, ?_, hxA⟩
        simp only [np_split_go]
        exact List.mem_cons_of_mem _ hA

theorem np_split_partition (xs : List ℕ) (lens : List ℤ) (hnd : xs.Nodup)
    (hpos : ∀ l ∈ lens.dropLast, 0 ≤ l) (hsum : lens.sum = (xs.length : ℤ))
    (hne : lens ≠ []) :
    (np_split_pieces xs (cumsum lens)).Pairwise (fun A B => ∀ x ∈ A, x ∉ B) ∧
    ∀ x : ℕ, (∃ A ∈ np_split_pieces xs (cumsum lens), x ∈ A) ↔ x ∈ xs := by
  have hc : cumsum lens = cumsumFrom 0 lens := cumsum_eq_cumsumFrom lens
  have hch : ((0 : ℤ) :: (cumsumFrom 0 lens).dropLast).Chain' (· ≤ ·) :=
    cumsumFrom_chain lens hpos 0
  have hlast : (cumsumFrom 0 lens).getLast? = some ((xs.length : ℤ)) := by
    rw [cumsumFrom_getLast lens hne 0, hsum]
    simp
  unfold np_split_pieces
  rw [hc]
  constructor
  · exact np_split_go_pairwise xs hnd (cumsumFrom 0 lens) 0 le_rfl hch
  · intro x
    constructor
    · rintro ⟨A, hA, hxA⟩
      exact np_split_go_mem xs _ 0 A hA x hxA
    · intro hx
      exact np_split_go_cover xs (cumsumFrom 0 lens) 0 le_rfl hch hlast x
        (by simpa using hx)

theorem pairwise_zip_snd {α β : Type} (R : β → β → Prop) (ns : List α) :
    ∀ ps : List β, ps.Pairwise R → (ns.zip ps).Pairwise (fun p q => R p.2 q.2) := by
  induction ns with
  | nil =>
    intro ps _
    simp
  | cons n nt ih =>
    intro ps hp
    cases ps with
    | nil => simp [List.zip_nil_right]
    | cons p pt =>
      rw [List.zip_cons_cons, List.pairwise_cons]
      obtain ⟨hh, ht⟩ := List.pairwise_cons.mp hp
      refine ⟨?_, ih pt ht⟩
      rintro ⟨qa, qb⟩ hq
      exact hh qb (List.mem_zip hq).2

theorem zip_union_iff {α β : Type} (ns : List α) :
    ∀ ps : List (List β), ns.length = ps.length →
      ∀ x : β, (∃ p ∈ ns.zip ps, x ∈ p.2) ↔ (∃ A ∈ ps, x ∈ A) := by
  induction ns with
  | nil =>
    intro ps hlen x
    cases ps with
    | nil => simp
    | cons _ _ => simp at hlen
  | cons n nt ih =>
    intro ps hlen x
    cases ps with
    | nil => simp at hlen
    | cons p pt =>
      rw [List.zip_cons_cons]
      constructor
      · rintro ⟨q, hq, hxq⟩
        rcases List.mem_cons.mp hq with rfl | hq'
        · exact ⟨p, List.mem_cons_self _ _, hxq⟩
        · obtain ⟨A, hA, hxA⟩ := (ih pt (by simpa using hlen) x).mp ⟨q, hq', hxq⟩
          exact ⟨A, List.mem_cons_of_mem _ hA, hxA⟩
      · rintro ⟨A, hA, hxA⟩
        rcases List.mem_cons.mp hA with rfl | hA'
        · exact ⟨(n, A), List.mem_cons_self _ _, hxA⟩
        · obtain ⟨q, hq, hxq⟩ := (ih pt (by simpa using hlen) x).mpr ⟨A, hA', hxA⟩
          exact ⟨q, List.mem_cons_of_mem _ hq, hxq⟩

theorem dictInsert_not_mem {α : Type} (d : List (String × α)) (k : String)
    (v : α) (h : k ∉ d.map Prod.fst) : dictInsert d k v = d ++ [(k, v)] := by
  unfold dictInsert
  rw [if_neg h]

theorem dictOfList_go_nodup {α : Type} (l : List (String × α)) :
    ∀ d : List (String × α), (((d ++ l).map Prod.fst).Nodup) →
      l.foldl (fun d kv => dictInsert d kv.1 kv.2) d = d ++ l := by
  induction l with
  | nil =>
    intro d _
    simp
  | cons kv t ih =>
    intro d hnd
    have hk : kv.1 ∉ d.map Prod.fst := by
      rw [List.map_append] at hnd
      rcases List.nodup_append.mp hnd with ⟨_, _, hdisj⟩
      intro hmem
      exact hdisj hmem (by simp)
    have hnd' : (((d ++ [(kv.1, kv.2)]) ++ t).map Prod.fst).Nodup := by
      rw [List.append_assoc]
      exact hnd
    show List.foldl (fun d kv => dictInsert d kv.1 kv.2)
      (dictInsert d kv.1 kv.2) t = d ++ kv :: t
    rw [dictInsert_not_mem d kv.1 kv.2 hk, ih (d ++ [(kv.1, kv.2)]) hnd',
      List.append_assoc]
    rfl

theorem dictOfList_nodup {α : Type} (l : List (String × α))
    (h : (l.map Prod.fst).Nodup) : dictOfList l = l := by
  unfold dictOfList
  have := dictOfList_go_nodup l [] (by simpa using h)
  simpa using this

theorem filterMap_get_range {α : Type} (xs : List α) :
    (List.range xs.length).filterMap xs.get? = xs := by
  induction xs with
  | nil => rfl
  | cons a t ih =>
    rw [List.length_cons, List.range_succ_eq_map, List.filterMap_cons]
    simp only [List.filterMap_map]
    have hcomp : (a :: t).get? ∘ Nat.succ = t.get? := by
      funext i
      rfl
    rw [hcomp, ih]
    rfl

theorem applyPerm_perm {α : Type} (perm : List ℕ) (xs : List α)
    (h : perm.Perm (List.range xs.length)) : (applyPerm perm xs).Perm xs := by
  unfold applyPerm
  have hp := h.filterMap xs.get?
  rw [filterMap_get_range] at hp
  exact hp

theorem split_lens_dropLast (fracs : List ℚ) (n : ℕ) :
    (split_lens fracs n).dropLast =
      fracs.dropLast.map fun f => pyRound (f * (n : ℚ)) := by
  unfold split_lens
  rw [List.dropLast_concat]

theorem split_lens_sum (fracs : List ℚ) (n : ℕ) :
    (split_lens fracs n).sum = (n : ℤ) := by
  unfold split_lens
  simp only [List.sum_append, List.sum_cons, List.sum_nil]
  omega

theorem split_lens_length (fracs : List ℚ) (n : ℕ) :
    (split_lens fracs n).length = fracs.dropLast.length + 1 := by
  unfold split_lens
  simp

theorem split_lens_ne_nil (fracs : List ℚ) (n : ℕ) :
    split_lens fracs n ≠ [] := by
  unfold split_lens
  simp

theorem pyRound_nonneg (q : ℚ) (h : 0 ≤ q) : 0 ≤ pyRound q := by
  show 0 ≤ (if q + 1/2 = ((⌊q + 1/2⌋ : ℤ) : ℚ) ∧ ⌊q + 1/2⌋ % 2 ≠ 0
    then ⌊q + 1/2⌋ - 1 else ⌊q + 1/2⌋)
  have h0 : 0 ≤ ⌊q + 1/2⌋ := by
    apply Int.le_floor.mpr
    push_cast
    linarith
  by_cases hc : q + 1/2 = ((⌊q + 1/2⌋ : ℤ) : ℚ) ∧ ⌊q + 1/2⌋ % 2 ≠ 0
  · rw [if_pos hc]
    have hpos : (0 : ℚ) < ((⌊q + 1/2⌋ : ℤ) : ℚ) := by
      rw [← hc.1]
      linarith
    have h1 : 0 < ⌊q + 1/2⌋ := by exact_mod_cast hpos
    omega
  · rw [if_neg hc]
    exact h0

/-- Counterexample for C10: with duplicate split names (names are the
caller's to pass; `split` never checks them for distinctness), the
name-keyed dict comprehension at base file line 350 overwrites the first
split's subjects with the second's: fractions `[1/2, 1/2]`, names
`["a", "a"]`, identity shuffles, subjects `{0, 1}` yield
`{"a": {1}}` — subject 0 belongs to NO split, so the split_subjects sets
do not partition (their union misses 0). -/
theorem split_duplicate_names_lose_subject :
    split_subjects_of [1/2, 1/2] (some ["a", "a"]) [0, 1] [0, 1] =
      [("a", [1])] ∧
    (0 : ℕ) ∈ ([0, 1] : List ℕ) ∧
    ¬ ∃ p ∈ split_subjects_of [1/2, 1/2] (some ["a", "a"]) [0, 1] [0, 1],
      (0 : ℕ) ∈ p.2 := by decide

/-- **C10 (amended).** For every call to `split` with fractions each at
least 0 and summing to at most 1 (the remainder split appended when the
sum is strictly below 1, default names when none are given), IF the
effective split names are distinct (and of the right length, and the two
shuffles are genuine permutations, and the subject ids are distinct), the
resulting `split_subjects` sets partition the subject ids: the per-name
subject sets are pairwise disjoint and their union is exactly the subject
id set.  (Without the distinct-names condition the dict comprehension
overwrites repeated names and subjects are lost, see the
counterexample.) -/
theorem split_subjects_of_partition (split_fracs : List ℚ)
    (split_names? : Option (List String)) (namePerm : List ℕ)
    (subjects : List ℕ) (fracsEff : List ℚ) (names : List String)
    (hfe : fracsEff = if split_fracs.sum < 1 then
      split_fracs ++ [1 - split_fracs.sum] else split_fracs)
    (hna : names = (match split_names? with
      | none => default_split_names fracsEff.length
      | some ns => ns))
    (hf0 : ∀ f ∈ split_fracs, 0 ≤ f)
    (hsum : split_fracs.sum ≤ 1)
    (hnn : names.Nodup)
    (hlen : names.length = fracsEff.length)
    (hperm : namePerm.Perm (List.range fracsEff.length))
    (hsub : subjects.Nodup) :
    (split_subjects_of split_fracs split_names? namePerm subjects).Pairwise
      (fun p q => ∀ x ∈ p.2, x ∉ q.2) ∧
    ∀ x : ℕ, (∃ p ∈ split_subjects_of split_fracs split_names? namePerm subjects,
      x ∈ p.2) ↔ x ∈ subjects := by
  have hfe0 : ∀ f ∈ fracsEff, 0 ≤ f := by
    intro f hf
    rw [hfe] at hf
    by_cases hc : split_fracs.sum < 1
    · rw [if_pos hc] at hf
      rcases List.mem_append.mp hf with hf' | hf'
      · exact hf0 f hf'
      · have : f = 1 - split_fracs.sum := by simpa using hf'
        rw [this]
        linarith
    · rw [if_neg hc] at hf
      exact hf0 f hf
  have hfene : fracsEff ≠ [] := by
    rw [hfe]
    by_cases hc : split_fracs.sum < 1
    · rw [if_pos hc]
      simp
    · rw [if_neg hc]
      intro hnil
      rw [hnil] at hc
      simp at hc
  have hfq : (applyPerm namePerm fracsEff).Perm fracsEff :=
    applyPerm_perm _ _ hperm
  have hnq : (applyPerm namePerm names).Perm names :=
    applyPerm_perm _ _ (by rw [hlen]; exact hperm)
  have hflen : (applyPerm namePerm fracsEff).length = fracsEff.length :=
    hfq.length_eq
  have hnlen : (applyPerm namePerm names).length = fracsEff.length := by
    rw [hnq.length_eq, hlen]
  have hnnd : (applyPerm namePerm names).Nodup := hnq.nodup_iff.mpr hnn
  have hlpos : ∀ l ∈ (split_lens (applyPerm namePerm fracsEff)
      subjects.length).dropLast, 0 ≤ l := by
    rw [split_lens_dropLast]
    intro l hl
    rcases List.mem_map.mp hl with ⟨f, hf, rfl⟩
    apply pyRound_nonneg
    have hf' : f ∈ fracsEff :=
      hfq.mem_iff.mp ((List.dropLast_sublist _).subset hf)
    exact mul_nonneg (hfe0 f hf') (by positivity)
  have hpart := np_split_partition subjects
    (split_lens (applyPerm namePerm fracsEff) subjects.length) hsub hlpos
    (split_lens_sum _ _) (split_lens_ne_nil _ _)
  have hplen : (np_split_pieces subjects (cumsum (split_lens
      (applyPerm namePerm fracsEff) subjects.length))).length =
      (applyPerm namePerm names).length := by
    unfold np_split_pieces
    rw [np_split_go_length, cumsum_eq_cumsumFrom, cumsumFrom_length,
      split_lens_length, hnlen, List.length_dropLast, hflen]
    have hne0 : fracsEff.length ≠ 0 := fun h =>
      hfene (List.length_eq_zero.mp h)
    omega
  have hsplit : split_subjects_of split_fracs split_names? namePerm subjects =
      (applyPerm namePerm names).zip
        (np_split_pieces subjects (cumsum (split_lens
          (applyPerm namePerm fracsEff) subjects.length))) := by
    have hzipnd : ((((applyPerm namePerm names).zip
        (np_split_pieces subjects (cumsum (split_lens
          (applyPerm namePerm fracsEff) subjects.length)))).map
        Prod.fst).Nodup) := by
      rw [List.map_fst_zip _ _ (le_of_eq hplen.symm)]
      exact hnnd
    have hdict : split_subjects_of split_fracs split_names? namePerm subjects =
        dictOfList ((applyPerm namePerm names).zip
          (np_split_pieces subjects (cumsum (split_lens
            (applyPerm namePerm fracsEff) subjects.length)))) := by
      subst hfe hna
      rfl
    rw [hdict, dictOfList_nodup _ hzipnd]
  rw [hsplit]
  constructor
  · exact pairwise_zip_snd _ _ _ hpart.1
  · intro x
    rw [zip_union_iff _ _ hplen.symm x]
    exact hpart.2 x

/-- Witness for C10: fractions `[1/2, 1/2]` (nonnegative, summing to 1),
names `["a", "b"]` (distinct, right length), name shuffle `[1, 0]` (a
permutation of `range 2`), distinct subjects `[3, 5]` — the partition
theorem applies. -/
theorem split_subjects_of_partition_witness :
    (∀ f ∈ ([1/2, 1/2] : List ℚ), 0 ≤ f) ∧
    ([1/2, 1/2] : List ℚ).sum ≤ 1 ∧
    (["a", "b"] : List String).Nodup ∧
    ([1, 0] : List ℕ).Perm (List.range 2) ∧
    ([3, 5] : List ℕ).Nodup ∧
    ((split_subjects_of [1/2, 1/2] (some ["a", "b"]) [1, 0] [3, 5]).Pairwise
      (fun p q => ∀ x ∈ p.2, x ∉ q.2) ∧
    ∀ x : ℕ, (∃ p ∈ split_subjects_of [1/2, 1/2] (some ["a", "b"]) [1, 0] [3, 5],
      x ∈ p.2) ↔ x ∈ ([3, 5] : List ℕ)) := by
  refine ⟨by decide, by decide, by decide, by decide, by decide, ?_⟩
  exact split_subjects_of_partition [1/2, 1/2] (some ["a", "b"]) [1, 0] [3, 5]
    [1/2, 1/2] ["a", "b"] (by decide) rfl (by decide) (by decide) (by decide)
    (by decide) (by decide) (by decide)

theorem lookup_eq_none_nat {β : Type} (k : ℕ) (l : List (ℕ × β))
    (h : k ∉ l.map Prod.fst) : l.lookup k = none := by
  induction l with
  | nil => rfl
  | cons p rest ih =>
    simp only [List.map_cons, List.mem_cons, not_or] at h
    cases p with
    | mk a b =>
      have hne : (k == a) = false := by simpa using h.1
      simp [List.lookup, hne, ih h.2]

theorem outer_join_keys {A B : Type} (left : List (ℕ × A))
    (right : List (ℕ × B)) (sid : ℕ) :
    (∃ r ∈ outer_join left right, r.1 = sid) ↔
      sid ∈ left.map Prod.fst ∨ sid ∈ right.map Prod.fst := by
  constructor
  · rintro ⟨r, hr, rfl⟩
    unfold outer_join at hr
    rcases List.mem_append.mp hr with h | h
    · rcases List.mem_map.mp h with ⟨ka, hka, rfl⟩
      exact Or.inl (List.mem_map_of_mem Prod.fst hka)
    · rcases List.mem_map.mp h with ⟨kb, hkb, rfl⟩
      exact Or.inr (List.mem_map_of_mem Prod.fst (List.mem_filter.mp hkb).1)
  · intro h
    by_cases hl : sid ∈ left.map Prod.fst
    · rcases List.mem_map.mp hl with ⟨ka, hka, rfl⟩
      refine ⟨(ka.1, some ka.2, right.lookup ka.1), ?_, rfl⟩
      unfold outer_join
      exact List.mem_append_left _ (List.mem_map_of_mem _ hka)
    · rcases h with h | h
      · exact absurd h hl
      · rcases List.mem_map.mp h with ⟨kb, hkb, rfl⟩
        refine ⟨(kb.1, (none : Option A), some kb.2), ?_, rfl⟩
        unfold outer_join
        apply List.mem_append_right
        apply List.mem_map_of_mem
        exact List.mem_filter.mpr ⟨hkb, by simpa using hl⟩

theorem outer_join_left_only {A B : Type} (left : List (ℕ × A))
    (right : List (ℕ × B)) (sid : ℕ) (a : A) (hmem : (sid, a) ∈ left)
    (hnr : sid ∉ right.map Prod.fst) :
    (sid, some a, (none : Option B)) ∈ outer_join left right := by
  unfold outer_join
  apply List.mem_append_left
  have hlk : right.lookup sid = none := lookup_eq_none_nat sid right hnr
  have hm := List.mem_map_of_mem
    (fun ka : ℕ × A => (ka.1, some ka.2, right.lookup ka.1)) hmem
  rw [← hlk]
  exact hm

/-- **C7.** `build_DL_cached_representation` (polars file, lines 940-1009)
never drops a subject, confirmed: a subject id appears among the output
rows IF AND ONLY IF it appears on the static side
(`static_data_of`, the grouped melted subjects frame) or on the event side
(`event_data_of`, the grouped event/dynamic frame) of the outer join; and
a subject with static data but no events — no key on the event side —
is output as the row `(sid, some staticAgg, none)`: its dynamic side is
the null produced by the outer join (an empty dynamic sequence
downstream), not a row removal. -/
theorem build_DL_never_drops_subjects (event_types : List String)
    (configs : List (String × Option (List String)))
    (valuesCols : List (String × String))
    (subject_measures ftd_measures dynamic_measures : List String)
    (subjects : List SubjectsRow) (events : List EventsRow)
    (dms : List DynRow) :
    (∀ sid : ℕ,
      (∃ r ∈ build_DL_cached_representation event_types configs valuesCols
        subject_measures ftd_measures dynamic_measures subjects events dms,
        r.1 = sid) ↔
      (sid ∈ (static_data_of event_types configs subject_measures
          subjects).map Prod.fst ∨
       sid ∈ (event_data_of event_types configs valuesCols ftd_measures
          dynamic_measures events dms).map Prod.fst)) ∧
    (∀ (sid : ℕ) (agg : StaticAgg),
      (sid, agg) ∈ static_data_of event_types configs subject_measures
        subjects →
      sid ∉ (event_data_of event_types configs valuesCols ftd_measures
        dynamic_measures events dms).map Prod.fst →
      (sid, some agg, (none : Option SubjectEventsAgg)) ∈
        build_DL_cached_representation event_types configs valuesCols
          subject_measures ftd_measures dynamic_measures subjects events
          dms) := by
  constructor
  · intro sid
    exact outer_join_keys _ _ sid
  · intro sid agg hmem hnr
    exact outer_join_left_only _ _ sid agg hmem hnr

theorem plRound_intCast (n : ℤ) : plRound ((n : ℤ) : ℚ) = n := by
  unfold plRound
  by_cases h : (0 : ℚ) ≤ (n : ℚ)
  · rw [if_pos h]
    rw [Int.floor_eq_iff]
    constructor
    · push_cast
      linarith
    · push_cast
      linarith
  · rw [if_neg h]
    have hfl : ⌊1/2 - (n : ℚ)⌋ = -n := by
      rw [Int.floor_eq_iff]
      constructor
      · push_cast
        linarith
      · push_cast
        linarith
    rw [hfl, neg_neg]

theorem plRound_bounds_nonneg (w : ℚ) (h : 0 ≤ w) :
    w - 1/2 < ((plRound w : ℤ) : ℚ) ∧ ((plRound w : ℤ) : ℚ) ≤ w + 1/2 := by
  unfold plRound
  rw [if_pos h]
  have h1 := Int.floor_le (w + 1/2)
  have h2 := Int.lt_floor_add_one (w + 1/2)
  constructor <;> linarith

theorem plRound_bounds_neg (w : ℚ) (h : w < 0) :
    w - 1/2 ≤ ((plRound w : ℤ) : ℚ) ∧ ((plRound w : ℤ) : ℚ) < w + 1/2 := by
  unfold plRound
  rw [if_neg (not_le.mpr h)]
  have h1 := Int.floor_le (1/2 - w)
  have h2 := Int.lt_floor_add_one (1/2 - w)
  push_cast
  constructor <;> linarith

theorem plRound_nonneg_of_nonneg (w : ℚ) (h : 0 ≤ w) : 0 ≤ plRound w := by
  have hb := (plRound_bounds_nonneg w h).1
  by_contra hneg
  push_neg at hneg
  have hle : plRound w ≤ -1 := by omega
  have : ((plRound w : ℤ) : ℚ) ≤ -1 := by exact_mod_cast hle
  linarith

theorem plRound_nonpos_of_neg (w : ℚ) (h : w < 0) : plRound w ≤ 0 := by
  have hb := (plRound_bounds_neg w h).2
  by_contra hpos
  push_neg at hpos
  have hge : 1 ≤ plRound w := by omega
  have : (1 : ℚ) ≤ ((plRound w : ℤ) : ℚ) := by exact_mod_cast hge
  linarith

theorem plRound_eq_of_bounds_nonneg (q : ℚ) (n : ℤ) (hq : 0 ≤ q)
    (h1 : (n : ℚ) ≤ q + 1/2) (h2 : q + 1/2 < (n : ℚ) + 1) : plRound q = n := by
  unfold plRound
  rw [if_pos hq, Int.floor_eq_iff]
  constructor
  · exact_mod_cast h1
  · push_cast
    linarith

theorem plRound_eq_of_bounds_neg (q : ℚ) (n : ℤ) (hq : q < 0)
    (h1 : (n : ℚ) - 1/2 < q) (h2 : q ≤ (n : ℚ) + 1/2) : plRound q = n := by
  unfold plRound
  rw [if_neg (not_le.mpr hq)]
  have hfl : ⌊1/2 - q⌋ = -n := by
    rw [Int.floor_eq_iff]
    constructor
    · push_cast
      linarith
    · push_cast
      linarith
  rw [hfl, neg_neg]

theorem docs_no_drop (v : ℚ) (i1 i2 : Bool) (cl? cu? : Option ℚ) :
    drop_or_censor v none i1 none i2 cl? cu? = some (censorClamp cl? cu? v) := by
  rcases cl? with _ | cl <;> rcases cu? with _ | cu <;>
    simp only [drop_or_censor, dropLowerViolated, dropUpperViolated,
      censorLowerViolated, censorUpperViolated, censorClamp] <;>
    split_ifs <;> simp_all

theorem censorClamp_lower (cl? cu? : Option ℚ) (v cl : ℚ)
    (hord : ∀ c1 c2, cl? = some c1 → cu? = some c2 → c1 ≤ c2)
    (hcl : cl? = some cl) : cl ≤ censorClamp cl? cu? v := by
  subst hcl
  rcases hcu : cu? with _ | cu
  · simp only [censorClamp]
    split_ifs <;> linarith
  · have hcc : cl ≤ cu := hord cl cu rfl hcu
    simp only [censorClamp]
    split_ifs <;> linarith

theorem censorClamp_upper (cl? cu? : Option ℚ) (v cu : ℚ)
    (hord : ∀ c1 c2, cl? = some c1 → cu? = some c2 → c1 ≤ c2)
    (hcu : cu? = some cu) : censorClamp cl? cu? v ≤ cu := by
  subst hcu
  rcases hcl : cl? with _ | cl
  · simp only [censorClamp]
    split_ifs <;> linarith
  · have hcc : cl ≤ cu := hord cl cu hcl rfl
    simp only [censorClamp]
    split_ifs <;> linarith

theorem censorClamp_stable (cl? cu? : Option ℚ) (v : ℚ)
    (hord : ∀ c1 c2, cl? = some c1 → cu? = some c2 → c1 ≤ c2) :
    censorClamp cl? cu? (censorClamp cl? cu? v) = censorClamp cl? cu? v := by
  rcases hcl : cl? with _ | cl <;> rcases hcu : cu? with _ | cu
  · rfl
  · have hub := censorClamp_upper (none : Option ℚ) (some cu) v cu (by simp) rfl
    simp only [censorClamp]
    split_ifs <;> first | rfl | linarith
  · have hlb := censorClamp_lower (some cl) (none : Option ℚ) v cl (by simp) rfl
    simp only [censorClamp]
    split_ifs <;> first | rfl | linarith
  · have hcc : cl ≤ cu := hord cl cu hcl hcu
    have hord' : ∀ c1 c2, some cl = some c1 → some cu = some c2 → c1 ≤ c2 := by
      intro c1 c2 h1 h2
      injection h1 with h1
      injection h2 with h2
      rw [← h1, ← h2]
      exact hcc
    have hlb := censorClamp_lower (some cl) (some cu) v cl hord' rfl
    have hub := censorClamp_upper (some cl) (some cu) v cu hord' rfl
    simp only [censorClamp]
    split_ifs <;> first | rfl | linarith

theorem plRound_clamp_round (cl? cu? : Option ℚ) (w : ℚ)
    (hwl : ∀ cl, cl? = some cl → cl ≤ w)
    (hwu : ∀ cu, cu? = some cu → w ≤ cu) :
    plRound (censorClamp cl? cu? ((plRound w : ℤ) : ℚ)) = plRound w := by
  have hcl_case : ∀ cl : ℚ, ((plRound w : ℤ) : ℚ) < cl → cl ≤ w →
      plRound cl = plRound w := by
    intro cl hlt hle
    by_cases hw : 0 ≤ w
    · have hb := plRound_bounds_nonneg w hw
      have hn0 : 0 ≤ plRound w := plRound_nonneg_of_nonneg w hw
      have hn0' : (0 : ℚ) ≤ ((plRound w : ℤ) : ℚ) := by exact_mod_cast hn0
      exact plRound_eq_of_bounds_nonneg cl (plRound w) (by linarith)
        (by linarith) (by linarith)
    · push_neg at hw
      have hb := plRound_bounds_neg w hw
      exact plRound_eq_of_bounds_neg cl (plRound w) (by linarith)
        (by linarith) (by linarith)
  have hcu_case : ∀ cu : ℚ, cu < ((plRound w : ℤ) : ℚ) → w ≤ cu →
      plRound cu = plRound w := by
    intro cu hlt hle
    by_cases hw : 0 ≤ w
    · have hb := plRound_bounds_nonneg w hw
      exact plRound_eq_of_bounds_nonneg cu (plRound w) (by linarith)
        (by linarith) (by linarith)
    · push_neg at hw
      have hb := plRound_bounds_neg w hw
      have hn0 : plRound w ≤ 0 := plRound_nonpos_of_neg w hw
      have hn0' : ((plRound w : ℤ) : ℚ) ≤ 0 := by exact_mod_cast hn0
      exact plRound_eq_of_bounds_neg cu (plRound w) (by linarith)
        (by linarith) (by linarith)
  rcases hcl : cl? with _ | cl <;> rcases hcu : cu? with _ | cu <;>
    simp only [censorClamp]
  · exact plRound_intCast _
  · split_ifs with h1
    · exact hcu_case cu h1 (hwu cu hcu)
    · exact plRound_intCast _
  · split_ifs with h1
    · exact hcl_case cl h1 (hwl cl hcl)
    · exact plRound_intCast _
  · split_ifs with h1 h2
    · exact hcl_case cl h1 (hwl cl hcl)
    · exact hcu_case cu h2 (hwu cu hcu)
    · exact plRound_intCast _

theorem FV_applyBounds_val (m : TransformMetaRow)
    (hdl : m.drop_lower_bound = none) (hdu : m.drop_upper_bound = none)
    (v : ℚ) :
    FV.applyBounds m (FV.val v) =
      FV.val (censorClamp m.censor_lower_bound m.censor_upper_bound v) := by
  simp only [FV.applyBounds]
  rw [hdl, hdu, docs_no_drop]

theorem FV_applyBounds_stable (m : TransformMetaRow)
    (hdl : m.drop_lower_bound = none) (hdu : m.drop_upper_bound = none)
    (hord : ∀ cl cu, m.censor_lower_bound = some cl →
      m.censor_upper_bound = some cu → cl ≤ cu) (x : FV) :
    FV.applyBounds m (FV.applyBounds m x) = FV.applyBounds m x := by
  cases x with
  | null => rfl
  | nan => rfl
  | val v =>
    rw [FV_applyBounds_val m hdl hdu v, FV_applyBounds_val m hdl hdu _,
      censorClamp_stable _ _ _ hord]

theorem FV_round_applyBounds_round_stable (m : TransformMetaRow)
    (hdl : m.drop_lower_bound = none) (hdu : m.drop_upper_bound = none)
    (hord : ∀ cl cu, m.censor_lower_bound = some cl →
      m.censor_upper_bound = some cu → cl ≤ cu) (x : FV) :
    FV.round (FV.applyBounds m (FV.round (FV.applyBounds m x))) =
      FV.round (FV.applyBounds m x) := by
  cases x with
  | null => rfl
  | nan => rfl
  | val v =>
    rw [FV_applyBounds_val m hdl hdu v]
    simp only [FV.round]
    rw [FV_applyBounds_val m hdl hdu _]
    simp only [FV.round]
    rw [plRound_clamp_round m.censor_lower_bound m.censor_upper_bound
      (censorClamp m.censor_lower_bound m.censor_upper_bound v)
      (fun cl hcl => censorClamp_lower _ _ _ _ hord hcl)
      (fun cu hcu => censorClamp_upper _ _ _ _ hord hcu)]

theorem FV_applyBounds_ne_null (m : TransformMetaRow) (x : FV)
    (h : x ≠ FV.null) : FV.applyBounds m x ≠ FV.null := by
  cases x with
  | null => exact absurd rfl h
  | nan => simp [FV.applyBounds]
  | val v =>
    simp only [FV.applyBounds]
    split <;> simp

theorem rewriteKey_cat_eq (vt : NumericValueType)
    (hvt : vt = NumericValueType.categoricalInteger ∨
      vt = NumericValueType.categoricalFloat) (k : String) (vb : FV)
    (h : vb ≠ FV.null) :
    ∃ t, rewriteKey vt k vb = some (k ++ "__EQ_" ++ t) := by
  rcases hvt with rfl | rfl <;> cases vb <;>
    first
      | exact absurd rfl h
      | exact ⟨_, rfl⟩

theorem numericPair_unk (md : List (String × TransformMetaRow))
    (H2 : md.lookup "UNK" = none) (x : FV) :
    numericPair md "UNK" x = (some "UNK", x) := by
  unfold numericPair
  rw [H2]

theorem numericPair_fst_isSome (md : List (String × TransformMetaRow))
    (k : String) (v : FV)
    (H4 : ∀ m, md.lookup k = some m →
      (m.value_type = NumericValueType.categoricalInteger ∨
       m.value_type = NumericValueType.categoricalFloat) → v ≠ FV.null) :
    (numericPair md k v).1.isSome := by
  unfold numericPair
  rcases hmd : md.lookup k with _ | m
  · rfl
  · show (rewriteKey m.value_type k (FV.applyBounds m v)).isSome
    cases hvt : m.value_type with
    | categoricalInteger =>
      have hvb := FV_applyBounds_ne_null m v (H4 m hmd (Or.inl hvt))
      obtain ⟨t, ht⟩ := rewriteKey_cat_eq m.value_type (Or.inl hvt) k _ hvb
      rw [hvt] at ht
      rw [ht]
      rfl
    | categoricalFloat =>
      have hvb := FV_applyBounds_ne_null m v (H4 m hmd (Or.inr hvt))
      obtain ⟨t, ht⟩ := rewriteKey_cat_eq m.value_type (Or.inr hvt) k _ hvb
      rw [hvt] at ht
      rw [ht]
      rfl
    | integer => rfl
    | float => rfl
    | dropped => rfl

theorem numericPair_out_stable (md : List (String × TransformMetaRow))
    (k : String) (v : FV)
    (H1 : ∀ k' m, md.lookup k' = some m → m.drop_lower_bound = none ∧
      m.drop_upper_bound = none ∧ ∀ cl cu, m.censor_lower_bound = some cl →
        m.censor_upper_bound = some cu → cl ≤ cu)
    (H3 : ∀ k' m, md.lookup k' = some m →
      (m.value_type = NumericValueType.categoricalInteger ∨
       m.value_type = NumericValueType.categoricalFloat) →
      ∀ s, md.lookup (k' ++ "__EQ_" ++ s) = none)
    (H4 : ∀ m, md.lookup k = some m →
      (m.value_type = NumericValueType.categoricalInteger ∨
       m.value_type = NumericValueType.categoricalFloat) → v ≠ FV.null)
    (k1 : String) (h : (numericPair md k v).1 = some k1) :
    numericPair md k1 (numericPair md k v).2 = numericPair md k v := by
  rcases hmd : md.lookup k with _ | m
  · have he : numericPair md k v = (some k, v) := by
      unfold numericPair
      rw [hmd]
    rw [he] at h ⊢
    have hk1 : k1 = k := by simpa using h.symm
    subst hk1
    unfold numericPair
    rw [hmd]
  · obtain ⟨hdl, hdu, hord⟩ := H1 k m hmd
    have he : numericPair md k v =
        (rewriteKey m.value_type k (FV.applyBounds m v),
         rewriteVal m.value_type (FV.applyBounds m v)) := by
      unfold numericPair
      rw [hmd]
    cases hvt : m.value_type with
    | float =>
      have he2 : numericPair md k v = (some k, FV.applyBounds m v) := by
        rw [he, hvt]
        rfl
      rw [he2] at h ⊢
      have hk1 : k1 = k := by simpa using h.symm
      rw [hk1]
      simp only [numericPair, hmd, hvt]
      rw [FV_applyBounds_stable m hdl hdu hord v]
      rfl
    | integer =>
      have he2 : numericPair md k v = (some k, FV.round (FV.applyBounds m v)) := by
        rw [he, hvt]
        rfl
      rw [he2] at h ⊢
      have hk1 : k1 = k := by simpa using h.symm
      rw [hk1]
      simp only [numericPair, hmd, hvt]
      show (some k, FV.round (FV.applyBounds m (FV.round (FV.applyBounds m v)))) =
        (some k, FV.round (FV.applyBounds m v))
      rw [FV_round_applyBounds_round_stable m hdl hdu hord v]
    | dropped =>
      have he2 : numericPair md k v = (some k, FV.nan) := by
        rw [he, hvt]
        rfl
      rw [he2] at h ⊢
      have hk1 : k1 = k := by simpa using h.symm
      rw [hk1]
      simp only [numericPair, hmd, hvt]
      rfl
    | categoricalInteger =>
      have hvb : FV.applyBounds m v ≠ FV.null :=
        FV_applyBounds_ne_null m v (H4 m hmd (Or.inl hvt))
      obtain ⟨t, ht⟩ := rewriteKey_cat_eq m.value_type (Or.inl hvt) k _ hvb
      have he2 : numericPair md k v = (some (k ++ "__EQ_" ++ t), FV.nan) := by
        rw [he, ht, hvt]
        rfl
      rw [he2] at h ⊢
      have hk1 : k1 = k ++ "__EQ_" ++ t := by simpa using h.symm
      subst hk1
      have hnone := H3 k m hmd (Or.inl hvt) t
      simp only [numericPair, hnone]
    | categoricalFloat =>
      have hvb : FV.applyBounds m v ≠ FV.null :=
        FV_applyBounds_ne_null m v (H4 m hmd (Or.inr hvt))
      obtain ⟨t, ht⟩ := rewriteKey_cat_eq m.value_type (Or.inr hvt) k _ hvb
      have he2 : numericPair md k v = (some (k ++ "__EQ_" ++ t), FV.nan) := by
        rw [he, ht, hvt]
        rfl
      rw [he2] at h ⊢
      have hk1 : k1 = k ++ "__EQ_" ++ t := by simpa using h.symm
      subst hk1
      have hnone := H3 k m hmd (Or.inr hvt) t
      simp only [numericPair, hnone]

theorem kvStep_fst_isSome (md : List (String × TransformMetaRow))
    (vocab? : Option (List String)) (k : String) (v : FV)
    (H4 : ∀ m, md.lookup k = some m →
      (m.value_type = NumericValueType.categoricalInteger ∨
       m.value_type = NumericValueType.categoricalFloat) → v ≠ FV.null) :
    (kvStep md vocab? k v).1.isSome := by
  have hnp := numericPair_fst_isSome md k v H4
  cases vocab? with
  | none => exact hnp
  | some vs =>
    rcases hp : (numericPair md k v).1 with _ | k1
    · rw [hp] at hnp
      simp at hnp
    · simp only [kvStep, hp]
      split <;> rfl

theorem kvStep_stable (md : List (String × TransformMetaRow))
    (vocab? : Option (List String)) (k : String) (v : FV)
    (H1 : ∀ k' m, md.lookup k' = some m → m.drop_lower_bound = none ∧
      m.drop_upper_bound = none ∧ ∀ cl cu, m.censor_lower_bound = some cl →
        m.censor_upper_bound = some cu → cl ≤ cu)
    (H2 : md.lookup "UNK" = none)
    (H3 : ∀ k' m, md.lookup k' = some m →
      (m.value_type = NumericValueType.categoricalInteger ∨
       m.value_type = NumericValueType.categoricalFloat) →
      ∀ s, md.lookup (k' ++ "__EQ_" ++ s) = none)
    (H4 : ∀ m, md.lookup k = some m →
      (m.value_type = NumericValueType.categoricalInteger ∨
       m.value_type = NumericValueType.categoricalFloat) → v ≠ FV.null)
    (k' : String) (h : (kvStep md vocab? k v).1 = some k') :
    kvStep md vocab? k' (kvStep md vocab? k v).2 = kvStep md vocab? k v := by
  have hnp := numericPair_fst_isSome md k v H4
  rcases hp : (numericPair md k v).1 with _ | k1
  · rw [hp] at hnp
    simp at hnp
  · cases vocab? with
    | none =>
      exact numericPair_out_stable md k v H1 H3 H4 k' h
    | some vs =>
      have hstab := numericPair_out_stable md k v H1 H3 H4 k1 hp
      have hks : kvStep md (some vs) k v =
          (if k1 ∈ vs then (some k1, (numericPair md k v).2)
           else (some "UNK", FV.nan)) := by
        simp only [kvStep, hp]
      by_cases hin : k1 ∈ vs
      · rw [hks, if_pos hin] at h ⊢
        have hk' : k' = k1 := by simpa using h.symm
        subst hk'
        simp only [kvStep, hstab, hp]
        rw [if_pos hin]
      · rw [hks, if_neg hin] at h ⊢
        have hk' : k' = "UNK" := by simpa using h.symm
        subst hk'
        have hu := numericPair_unk md H2 FV.nan
        simp only [kvStep, hu]
        split <;> rfl

theorem numericRewrite_row_eq (md : List (String × TransformMetaRow))
    (r : MeasRow) (k : String) (hk : r.key = some k) :
    (numericRewrite md r).row =
      { r with key := (numericPair md k r.val).1,
               val := (numericPair md k r.val).2 } := by
  unfold numericRewrite numericPair
  simp only [hk]
  rcases hmd : md.lookup k with _ | m
  · cases r with
    | mk mid key val inl =>
      simp only at hk
      subst hk
      rfl
  · rfl

theorem numericRewrite_mid (md : List (String × TransformMetaRow))
    (r : MeasRow) :
    (numericRewrite md r).row.measurement_id = r.measurement_id := by
  rcases hk : r.key with _ | k
  · unfold numericRewrite
    rw [hk]
  · rw [numericRewrite_row_eq md r k hk]

theorem catRow_mid (vs : List String) (r : MeasRow) :
    (catRow vs r).measurement_id = r.measurement_id := rfl

theorem transformRowFn_some (md : List (String × TransformMetaRow))
    (vocab? : Option (List String)) (r : MeasRow) (k : String)
    (hk : r.key = some k) :
    transformRowFn md vocab? r =
      { r with key := (kvStep md vocab? k r.val).1,
               val := (kvStep md vocab? k r.val).2 } := by
  unfold transformRowFn
  rw [hk]

theorem transformRowFn_none (md : List (String × TransformMetaRow))
    (vocab? : Option (List String)) (r : MeasRow) (hk : r.key = none) :
    transformRowFn md vocab? r = { r with key := none, val := FV.null } := by
  unfold transformRowFn
  rw [hk]

theorem transformRowFn_mid (md : List (String × TransformMetaRow))
    (vocab? : Option (List String)) (r : MeasRow) :
    (transformRowFn md vocab? r).measurement_id = r.measurement_id := by
  unfold transformRowFn
  rcases hk : r.key with _ | k <;> rfl

theorem G_eq_transformRow_some (md : List (String × TransformMetaRow))
    (vs : List String) (r : MeasRow) (k : String) (hk : r.key = some k) :
    catRow vs (numericRewrite md r).row =
      { r with key := (kvStep md (some vs) k r.val).1,
               val := (kvStep md (some vs) k r.val).2 } := by
  rw [numericRewrite_row_eq md r k hk]
  rcases hp : (numericPair md k r.val).1 with _ | k1
  · simp only [catRow, kvStep, hp]
  · simp only [catRow, kvStep, hp]
    split_ifs with hin <;> rfl

theorem find?_eq_some_unique {α : Type} (p : α → Bool) (l : List α) (a : α)
    (ha : a ∈ l) (hpa : p a = true) (hu : ∀ b ∈ l, p b = true → b = a) :
    l.find? p = some a := by
  induction l with
  | nil => simp at ha
  | cons x t ih =>
    cases hx : p x
    · rw [List.find?_cons_of_neg _ (by simp [hx])]
      apply ih
      · rcases List.mem_cons.mp ha with rfl | hmem
        · rw [hpa] at hx
          cases hx
        · exact hmem
      · exact fun b hb hpb => hu b (List.mem_cons_of_mem _ hb) hpb
    · rw [List.find?_cons_of_pos _ (by simp [hx])]
      rw [hu x (List.mem_cons_self _ _) hx]

theorem find?_perm_unique {α : Type} (p : α → Bool) (l l' : List α)
    (h : l.Perm l')
    (hu : ∀ x ∈ l, ∀ y ∈ l, p x = true → p y = true → x = y) :
    l.find? p = l'.find? p := by
  rcases hf : l.find? p with _ | a
  · rw [List.find?_eq_none] at hf
    symm
    rw [List.find?_eq_none]
    intro x hx
    exact hf x (h.mem_iff.mpr hx)
  · have ha := List.mem_of_find?_eq_some hf
    have hpa := List.find?_some hf
    symm
    apply find?_eq_some_unique p l' a (h.mem_iff.mp ha) hpa
    intro b hb hpb
    exact hu b (h.mem_iff.mpr hb) a ha hpb hpa

theorem writeback_map (tbl srcT : List MeasRow) (G : MeasRow → MeasRow)
    (hperm : srcT.Perm ((tbl.filter (·.key.isSome)).map G))
    (hGmid : ∀ s, (G s).measurement_id = s.measurement_id)
    (hmid : (tbl.map (·.measurement_id)).Nodup) :
    transform_writeback false tbl srcT =
      tbl.map (fun r0 => match r0.key with
        | none => { r0 with key := none, val := FV.null }
        | some _ => { r0 with key := (G r0).key, val := (G r0).val }) := by
  have hsrcmid : ((tbl.filter (·.key.isSome)).map (·.measurement_id)).Nodup :=
    ((List.filter_sublist tbl).map (·.measurement_id)).nodup hmid
  unfold transform_writeback
  apply List.map_congr_left
  intro r0 hr0
  have hfind : srcT.find? (fun s => s.measurement_id = r0.measurement_id) =
      ((tbl.filter (·.key.isSome)).map G).find?
        (fun s => s.measurement_id = r0.measurement_id) := by
    apply find?_perm_unique _ _ _ hperm
    intro x hx y hy hpx hpy
    rcases List.mem_map.mp (hperm.subset hx) with ⟨sx, hsx, rfl⟩
    rcases List.mem_map.mp (hperm.subset hy) with ⟨sy, hsy, rfl⟩
    have hx' : sx.measurement_id = r0.measurement_id := by
      have := of_decide_eq_true hpx
      rwa [hGmid sx] at this
    have hy' : sy.measurement_id = r0.measurement_id := by
      have := of_decide_eq_true hpy
      rwa [hGmid sy] at this
    rw [List.inj_on_of_nodup_map hsrcmid hsx hsy (hx'.trans hy'.symm)]
  rw [hfind]
  rcases hk : r0.key with _ | k
  · have hnone : ((tbl.filter (·.key.isSome)).map G).find?
        (fun s => s.measurement_id = r0.measurement_id) = none := by
      rw [List.find?_eq_none]
      intro x hx hpx
      rcases List.mem_map.mp hx with ⟨s, hs, rfl⟩
      have hsm : s.measurement_id = r0.measurement_id := by
        have := of_decide_eq_true hpx
        rwa [hGmid s] at this
      have hseq : s = r0 :=
        List.inj_on_of_nodup_map hmid (List.mem_filter.mp hs).1 hr0 hsm
      have hks := (List.mem_filter.mp hs).2
      rw [hseq, hk] at hks
      simp at hks
    rw [hnone]
    rfl
  · have hr0src : r0 ∈ tbl.filter (·.key.isSome) :=
      List.mem_filter.mpr ⟨hr0, by rw [hk]; rfl⟩
    have hsome : ((tbl.filter (·.key.isSome)).map G).find?
        (fun s => s.measurement_id = r0.measurement_id) = some (G r0) := by
      apply find?_eq_some_unique
      · exact List.mem_map_of_mem G hr0src
      · simp [hGmid]
      · intro b hb hpb
        rcases List.mem_map.mp hb with ⟨s, hs, rfl⟩
        have hsm : s.measurement_id = r0.measurement_id := by
          have := of_decide_eq_true hpb
          rwa [hGmid s] at this
        rw [List.inj_on_of_nodup_map hmid (List.mem_filter.mp hs).1 hr0 hsm]
    rw [hsome]
    show ({ r0 with
        key := match (G r0).key with | some k1 => some k1 | none => none,
        val := match (G r0).val with | FV.null => FV.null | v => v,
        inlier := r0.inlier } : MeasRow) =
      { r0 with key := (G r0).key, val := (G r0).val }
    rcases hgk : (G r0).key with _ | gk <;>
      rcases hgv : (G r0).val with _ | _ | q <;> rfl

theorem transform_numeric_perm (md : List (String × TransformMetaRow))
    (src : List MeasRow) :
    (transform_numerical_measurement none none md src).Perm
      (src.map fun r => (numericRewrite md r).row) := by
  have h0 : transform_numerical_measurement none none md src =
      ((src.map (numericRewrite md)).filter (fun j => !isNullIdx j.row) ++
       (src.map (numericRewrite md)).filter (fun j => isNullIdx j.row)).map
        (·.row) := rfl
  have hp1 : ((src.map (numericRewrite md)).filter (fun j => !isNullIdx j.row) ++
      (src.map (numericRewrite md)).filter (fun j => isNullIdx j.row)).Perm
        (src.map (numericRewrite md)) := by
    have hfp := List.filter_append_perm (fun j => !isNullIdx j.row)
      (src.map (numericRewrite md))
    rw [show ((src.map (numericRewrite md)).filter fun x => !(!isNullIdx x.row)) =
        ((src.map (numericRewrite md)).filter fun j => isNullIdx j.row) from
      List.filter_congr (fun x _ => by simp)] at hfp
    exact hfp
  rw [h0]
  have hm := hp1.map (·.row)
  rwa [List.map_map] at hm

theorem transform_table_eq_map (md : List (String × TransformMetaRow))
    (vocab? : Option (List String)) (tbl : List MeasRow)
    (hmid : (tbl.map (·.measurement_id)).Nodup) :
    transform_measurements_table none none md vocab? tbl =
      tbl.map (transformRowFn md vocab?) := by
  cases vocab? with
  | none =>
    have hperm := transform_numeric_perm md (tbl.filter (·.key.isSome))
    have hwb := writeback_map tbl
      (transform_numerical_measurement none none md (tbl.filter (·.key.isSome)))
      (fun r => (numericRewrite md r).row) hperm
      (fun s => numericRewrite_mid md s) hmid
    calc transform_measurements_table none none md none tbl
        = transform_writeback false tbl
            (transform_numerical_measurement none none md
              (tbl.filter (·.key.isSome))) := rfl
      _ = tbl.map (fun r0 => match r0.key with
            | none => { r0 with key := none, val := FV.null }
            | some _ => { r0 with key := ((numericRewrite md r0).row).key,
                                  val := ((numericRewrite md r0).row).val }) := hwb
      _ = tbl.map (transformRowFn md none) := by
          apply List.map_congr_left
          intro r hr
          rcases hk : r.key with _ | k
          · rw [transformRowFn_none md none r hk]
          · rw [transformRowFn_some md none r k hk]
            simp only [hk]
            rw [numericRewrite_row_eq md r k hk]
            rfl
  | some vs =>
    have hperm0 := transform_numeric_perm md (tbl.filter (·.key.isSome))
    have hperm : (transform_categorical_measurement vs
        (transform_numerical_measurement none none md
          (tbl.filter (·.key.isSome)))).Perm
        ((tbl.filter (·.key.isSome)).map
          (fun r => catRow vs (numericRewrite md r).row)) := by
      have hm := hperm0.map (catRow vs)
      rw [List.map_map] at hm
      exact hm
    have hwb := writeback_map tbl
      (transform_categorical_measurement vs
        (transform_numerical_measurement none none md
          (tbl.filter (·.key.isSome))))
      (fun r => catRow vs (numericRewrite md r).row) hperm
      (fun s => by rw [catRow_mid, numericRewrite_mid]) hmid
    calc transform_measurements_table none none md (some vs) tbl
        = transform_writeback false tbl
            (transform_categorical_measurement vs
              (transform_numerical_measurement none none md
                (tbl.filter (·.key.isSome)))) := rfl
      _ = tbl.map (fun r0 => match r0.key with
            | none => { r0 with key := none, val := FV.null }
            | some _ => { r0 with key := (catRow vs (numericRewrite md r0).row).key,
                                  val := (catRow vs (numericRewrite md r0).row).val }) := hwb
      _ = tbl.map (transformRowFn md (some vs)) := by
          apply List.map_congr_left
          intro r hr
          rcases hk : r.key with _ | k
          · rw [transformRowFn_none md (some vs) r hk]
          · rw [transformRowFn_some md (some vs) r k hk]
            simp only [hk]
            rw [G_eq_transformRow_some md vs r k hk]

theorem transformRowFn_idem (md : List (String × TransformMetaRow))
    (vocab? : Option (List String)) (r : MeasRow)
    (H1 : ∀ k' m, md.lookup k' = some m → m.drop_lower_bound = none ∧
      m.drop_upper_bound = none ∧ ∀ cl cu, m.censor_lower_bound = some cl →
        m.censor_upper_bound = some cu → cl ≤ cu)
    (H2 : md.lookup "UNK" = none)
    (H3 : ∀ k' m, md.lookup k' = some m →
      (m.value_type = NumericValueType.categoricalInteger ∨
       m.value_type = NumericValueType.categoricalFloat) →
      ∀ s, md.lookup (k' ++ "__EQ_" ++ s) = none)
    (H4 : ∀ k m, r.key = some k → md.lookup k = some m →
      (m.value_type = NumericValueType.categoricalInteger ∨
       m.value_type = NumericValueType.categoricalFloat) → r.val ≠ FV.null) :
    transformRowFn md vocab? (transformRowFn md vocab? r) =
      transformRowFn md vocab? r := by
  rcases hk : r.key with _ | k
  · rw [transformRowFn_none md vocab? r hk]
    exact transformRowFn_none md vocab? _ rfl
  · rw [transformRowFn_some md vocab? r k hk]
    have hH4 : ∀ m, md.lookup k = some m →
        (m.value_type = NumericValueType.categoricalInteger ∨
         m.value_type = NumericValueType.categoricalFloat) → r.val ≠ FV.null :=
      fun m hm hc => H4 k m hk hm hc
    have hs := kvStep_fst_isSome md vocab? k r.val hH4
    rcases hk1 : (kvStep md vocab? k r.val).1 with _ | k'
    · rw [hk1] at hs
      simp at hs
    · have hst := kvStep_stable md vocab? k r.val H1 H2 H3 hH4 k' hk1
      rw [transformRowFn_some md vocab?
        ({ r with
          key := some k',
          val := (kvStep md vocab? k r.val).2 } : MeasRow) k' rfl]
      show ({ r with
          key := (kvStep md vocab? k' (kvStep md vocab? k r.val).2).1,
          val := (kvStep md vocab? k' (kvStep md vocab? k r.val).2).2 } :
            MeasRow) =
        { r with
          key := some k',
          val := (kvStep md vocab? k r.val).2 }
      rw [hst, hk1]

/-- Counterexample for C8: one already-transformed table on which a second
transform pass differs.  A CATEGORICAL_INTEGER key `k` with a NULL value:
pass one turns the key null (`"k__EQ_" + null` concatenation) and the value
NaN, and the write-back stores `(null, NaN)`; pass two finds no row for the
measurement id on the transformed side (a null key leaves the source), so
the write-back nulls the values column: `(null, NaN)` becomes
`(null, null)`.  No outlier detector and no normalizer are even
configured. -/
theorem transform_measurements_not_idempotent :
    transform_measurements_table none none
        [("k", { value_type := NumericValueType.categoricalInteger,
                 drop_lower_bound := none, drop_lower_bound_inclusive := false,
                 drop_upper_bound := none, drop_upper_bound_inclusive := false,
                 censor_lower_bound := none, censor_upper_bound := none,
                 outlier_model := none, normalizer := none })]
        (some ["x"])
        (transform_measurements_table none none
          [("k", { value_type := NumericValueType.categoricalInteger,
                   drop_lower_bound := none, drop_lower_bound_inclusive := false,
                   drop_upper_bound := none, drop_upper_bound_inclusive := false,
                   censor_lower_bound := none, censor_upper_bound := none,
                   outlier_model := none, normalizer := none })]
          (some ["x"])
          [{ measurement_id := 0, key := some "k", val := FV.null,
             inlier := none }]) ≠
      transform_measurements_table none none
        [("k", { value_type := NumericValueType.categoricalInteger,
                 drop_lower_bound := none, drop_lower_bound_inclusive := false,
                 drop_upper_bound := none, drop_upper_bound_inclusive := false,
                 censor_lower_bound := none, censor_upper_bound := none,
                 outlier_model := none, normalizer := none })]
        (some ["x"])
        [{ measurement_id := 0, key := some "k", val := FV.null,
           inlier := none }] := by decide

/-- **C8 (amended).** With the fitted state held fixed, no outlier
detector and no normalizer configured, applying the measurement transform
a second time to an already-transformed table gives the same table,
PROVIDED: the fitted metadata sets no drop bounds and its censor bounds
are ordered (`censor_lower ≤ censor_upper` when both are set); the key
`UNK` and the derived `"{key}__EQ_{value}"` keys of the
categorically-typed keys carry no metadata of their own; every stored row
whose key is categorically typed has a non-null value; and the
`measurement_id`s are distinct.  (Without these provisos a second pass
differs — see the counterexample; a configured normalizer or outlier
detector also re-applies, so the full pipeline is NOT idempotent as
claimed.) -/
theorem transform_measurements_idempotent
    (md : List (String × TransformMetaRow)) (vocab? : Option (List String))
    (tbl : List MeasRow)
    (H1 : ∀ k' m, md.lookup k' = some m → m.drop_lower_bound = none ∧
      m.drop_upper_bound = none ∧ ∀ cl cu, m.censor_lower_bound = some cl →
        m.censor_upper_bound = some cu → cl ≤ cu)
    (H2 : md.lookup "UNK" = none)
    (H3 : ∀ k' m, md.lookup k' = some m →
      (m.value_type = NumericValueType.categoricalInteger ∨
       m.value_type = NumericValueType.categoricalFloat) →
      ∀ s, md.lookup (k' ++ "__EQ_" ++ s) = none)
    (H4 : ∀ r ∈ tbl, ∀ k m, r.key = some k → md.lookup k = some m →
      (m.value_type = NumericValueType.categoricalInteger ∨
       m.value_type = NumericValueType.categoricalFloat) → r.val ≠ FV.null)
    (H5 : (tbl.map (·.measurement_id)).Nodup) :
    transform_measurements_table none none md vocab?
        (transform_measurements_table none none md vocab? tbl) =
      transform_measurements_table none none md vocab? tbl := by
  have hmap := transform_table_eq_map md vocab? tbl H5
  have H5' : ((tbl.map (transformRowFn md vocab?)).map
      (·.measurement_id)).Nodup := by
    rw [List.map_map]
    have hcomp : ((fun r : MeasRow => r.measurement_id) ∘
        transformRowFn md vocab?) = fun r : MeasRow => r.measurement_id := by
      funext r
      exact transformRowFn_mid md vocab? r
    rw [hcomp]
    exact H5
  rw [hmap, transform_table_eq_map md vocab? (tbl.map (transformRowFn md vocab?))
    H5', List.map_map]
  apply List.map_congr_left
  intro r hr
  exact transformRowFn_idem md vocab? r H1 H2 H3
    (fun k m hk hm hc => H4 r hr k m hk hm hc)

/-- Witness for C8: a table with one FLOAT-typed key (censor bounds
`[0, 10]`, no drop bounds) and one row outside the censor range — the
idempotence theorem applies and the double transform equals the single
one. -/
theorem transform_measurements_idempotent_witness :
    transform_measurements_table none none
        [("k", { value_type := NumericValueType.float,
                 drop_lower_bound := none, drop_lower_bound_inclusive := false,
                 drop_upper_bound := none, drop_upper_bound_inclusive := false,
                 censor_lower_bound := some 0, censor_upper_bound := some 10,
                 outlier_model := none, normalizer := none })]
        (some ["k"])
        (transform_measurements_table none none
          [("k", { value_type := NumericValueType.float,
                   drop_lower_bound := none, drop_lower_bound_inclusive := false,
                   drop_upper_bound := none, drop_upper_bound_inclusive := false,
                   censor_lower_bound := some 0, censor_upper_bound := some 10,
                   outlier_model := none, normalizer := none })]
          (some ["k"])
          [{ measurement_id := 1, key := some "k", val := FV.val 12,
             inlier := none }]) =
      transform_measurements_table none none
        [("k", { value_type := NumericValueType.float,
                 drop_lower_bound := none, drop_lower_bound_inclusive := false,
                 drop_upper_bound := none, drop_upper_bound_inclusive := false,
                 censor_lower_bound := some 0, censor_upper_bound := some 10,
                 outlier_model := none, normalizer := none })]
        (some ["k"])
        [{ measurement_id := 1, key := some "k", val := FV.val 12,
           inlier := none }] :=
  transform_measurements_idempotent _ _ _
    (by
      intro k' m hm
      simp only [List.lookup] at hm
      split at hm
      · injection hm with hm
        subst hm
        refine ⟨rfl, rfl, ?_⟩
        intro cl cu h1 h2
        injection h1 with h1
        injection h2 with h2
        rw [← h1, ← h2]
        norm_num
      · cases hm)
    (by decide)
    (by
      intro k' m hm hc s
      simp only [List.lookup] at hm
      split at hm
      · injection hm with hm
        subst hm
        rcases hc with hc | hc <;> simp at hc
      · cases hm)
    (by
      intro r hr k m hk hm hc
      simp only [List.lookup] at hm
      split at hm
      · injection hm with hm
        subst hm
        rcases hc with hc | hc <;> simp at hc
      · cases hm)
    (by decide)

end ESGPT
